import Mathlib

/-!
Verification of the Vorbis bitstream reconstruction engine of the
`wem_converter` repository (src/bit_stream.rs, src/codebook.rs,
src/wwriff.rs) against its natural-language specification.

The Rust code is shallowly embedded: machine integers become `Nat` with
explicit `% 2^w` wherever Rust wrapping (release-mode) semantics matter,
fallible operations return `Except String`, and mutable state is passed
explicitly.  Definitions mirror the source line by line; the line numbers
in the doc comments refer to the repository files.
-/

set_option maxRecDepth 8000

namespace Wem

/-! ## Constants (bit_stream.rs lines 10-12) -/

def HEADER_BYTES : Nat := 27

def MAX_SEGMENTS : Nat := 255

def SEGMENT_SIZE : Nat := 255

/-! ## BitOggStream: the bit-level Ogg page writer (bit_stream.rs lines 14-206)

The embedded state keeps the fields the bit-serial claims depend on: the
pending bit accumulator (`bit_buffer`, `bits_stored`) and the payload region
of `page_buffer`, i.e. `page_buffer[HEADER_BYTES + MAX_SEGMENTS ..]` up to
`payload_bytes`.  The page-sequencing fields (`first`, `continued`,
`granule`, `seqno`) and the output sink do not influence any claim about
payload bytes; the page-assembly arithmetic of `flush_page_internal` is
embedded separately below as pure functions of `payload_bytes`. -/

structure OggStream where
  bit_buffer : Nat
  bits_stored : Nat
  payload : List Nat
  deriving DecidableEq

def OggStream.init : OggStream := ⟨0, 0, []⟩

/-- Length of `page_buffer` (line 28). -/
def pageCapacity : Nat := HEADER_BYTES + MAX_SEGMENTS + SEGMENT_SIZE * MAX_SEGMENTS

/-- `BitOggStream::flush_bits` (lines 53-69).  On the out-of-space branch the
Rust code also emits the pending page before returning the error; the state
after an error is abandoned by every caller (the `?` operator propagates),
so the model only records the error. -/
def flush_bits (s : OggStream) : Except String OggStream :=
  if s.bits_stored ≠ 0 then
    if s.payload.length = SEGMENT_SIZE * MAX_SEGMENTS then
      Except.error "ran out of space in an Ogg packet"
    else if HEADER_BYTES + MAX_SEGMENTS + s.payload.length ≥ pageCapacity then
      Except.error "page buffer overflow"
    else
      Except.ok ⟨0, 0, s.payload ++ [s.bit_buffer]⟩
  else Except.ok s

/-- `BitOggStream::put_bit` (lines 42-51). -/
def put_bit (s : OggStream) (bit : Bool) : Except String OggStream :=
  let bb := if bit then s.bit_buffer ||| (1 <<< s.bits_stored) else s.bit_buffer
  let st : OggStream := ⟨bb, s.bits_stored + 1, s.payload⟩
  if st.bits_stored = 8 then flush_bits st else Except.ok st

/-- The byte-aligned fast path of `write_bits` (lines 171-181).
`value >> (i * 8)` on a `u32` masks the shift amount by 32 under
release-mode Rust semantics (`i` can reach 31 since `bits` is a `u8`). -/
def write_bits_byte_path (s : OggStream) (value : Nat) (bits : Nat) :
    Except String OggStream :=
  (List.range (bits / 8)).foldlM
    (fun st i =>
      if HEADER_BYTES + MAX_SEGMENTS + st.payload.length ≥ pageCapacity then
        Except.error "page buffer overflow"
      else
        Except.ok ⟨st.bit_buffer, st.bits_stored,
          st.payload ++ [(value >>> ((i * 8) % 32)) &&& 0xFF]⟩)
    s

/-- The bit-by-bit path of `write_bits` (lines 182-188), with the same
release-mode shift masking. -/
def write_bits_bit_path (s : OggStream) (value : Nat) (bits : Nat) :
    Except String OggStream :=
  (List.range bits).foldlM
    (fun st i => put_bit st (((value >>> (i % 32)) &&& 1) != 0)) s

/-- `BitOggStreamT::write_bits` for `BitOggStream` (lines 170-189). -/
def write_bits (s : OggStream) (value : Nat) (bits : Nat) :
    Except String OggStream :=
  if bits % 8 = 0 then write_bits_byte_path s value bits
  else write_bits_bit_path s value bits

/-! ## flush_page_internal: segment arithmetic (bit_stream.rs lines 77-141) -/

/-- Segment-count computation of `flush_page_internal` (lines 82-85):
`segments = (payload_bytes + SEGMENT_SIZE) / SEGMENT_SIZE`, clamped to
`MAX_SEGMENTS` only when it exceeds `MAX_SEGMENTS + 1`. -/
def page_segments (payload_bytes : Nat) : Nat :=
  let segments := (payload_bytes + SEGMENT_SIZE) / SEGMENT_SIZE
  if segments > MAX_SEGMENTS + 1 then MAX_SEGMENTS else segments

/-- The segment-count byte stored at `page_buffer[26]` (line 117):
`segments as u8`. -/
def page_segments_byte (payload_bytes : Nat) : Nat :=
  page_segments payload_bytes % 256

/-- The lacing table written at `page_buffer[27..27+segments]`
(lines 118-127); `bytes_left` decreases by `saturating_sub`, which is `Nat`
subtraction. -/
def lacing_table (payload_bytes : Nat) : List Nat :=
  ((List.range (page_segments payload_bytes)).foldl
    (fun (st : List Nat × Nat) _ =>
      let lace := if st.2 ≥ SEGMENT_SIZE then SEGMENT_SIZE else st.2
      (st.1 ++ [lace], st.2 - SEGMENT_SIZE))
    ([], payload_bytes)).1

/-! ## BitStream: the bit-level reader (bit_stream.rs lines 209-261)

`data` models the bytes the underlying reader has not yet delivered to
`read_exact`. -/

structure BitStream where
  data : List Nat
  bit_buffer : Nat
  bits_left : Nat
  total_bits_read : Nat
  deriving DecidableEq

def BitStream.new (bytes : List Nat) : BitStream := ⟨bytes, 0, 0, 0⟩

/-- `BitStream::get_bit` (lines 227-244): refill the one-byte buffer when
exhausted, then return the bit at position `0x80 >> bits_left` (LSB-first
within the byte). -/
def get_bit (s : BitStream) : Except String (Bool × BitStream) := do
  let s ←
    if s.bits_left = 0 then
      match s.data with
      | [] => Except.error "Out of bits"
      | b :: rest =>
        Except.ok (⟨rest, b, 8, s.total_bits_read⟩ : BitStream)
    else Except.ok s
  let s' : BitStream :=
    ⟨s.data, s.bit_buffer, s.bits_left - 1, s.total_bits_read + 1⟩
  Except.ok (((s'.bit_buffer &&& (0x80 >>> s'.bits_left)) != 0), s')

/-! ## BitUint / BitUintV (bit_stream.rs lines 264-336)

Both shapes carry a width and a value; the compile-time width of
`BitUint<BIT_SIZE>` becomes a value parameter.  A single structure serves
both since their `read_from`/`write_to` loops are textually identical. -/

structure BitUintV where
  size : Nat
  total : Nat
  deriving DecidableEq

/-- `BitUint::<BIT_SIZE>::new` (lines 272-280).  The `BIT_SIZE < 32`
conjunct short-circuits, so `1 << BIT_SIZE` is never evaluated with an
out-of-range shift here. -/
def BitUint.new (BIT_SIZE : Nat) (v : Nat) : Except String BitUintV :=
  if BIT_SIZE > 32 then Except.error "Too many bits"
  else if BIT_SIZE < 32 ∧ v ≥ 1 <<< BIT_SIZE then Except.error "Integer too big"
  else Except.ok ⟨BIT_SIZE, v⟩

/-- `BitUintV::new` (lines 308-316).  Unlike `BitUint::new` there is no
`size < 32` guard, so at `size = 32` the Rust expression `1u32 << size`
overflows: release-mode semantics mask the shift amount by 32 (debug mode
panics), so the bound degenerates to `1 <<< 0 = 1`.  The model uses the
release-mode mask. -/
def BitUintV.new (size : Nat) (v : Nat) : Except String BitUintV :=
  if size > 32 then Except.error "Too many bits"
  else if v ≥ 1 <<< (size % 32) then Except.error "Integer too big"
  else Except.ok ⟨size, v⟩

/-- The bit-gathering loop shared by both `read_from`s (lines 282-290 and
318-326): `total |= 1 << i` for each set bit, LSB-first. -/
def read_bits_loop (s : BitStream) (size : Nat) :
    Except String (BitStream × Nat) :=
  (List.range size).foldlM
    (fun (p : BitStream × Nat) i => do
      let (b, s') ← get_bit p.1
      pure (s', if b then p.2 ||| (1 <<< i) else p.2))
    (s, 0)

/-- `BitUint::<BIT_SIZE>::read_from` (lines 282-290). -/
def BitUint.read_from (BIT_SIZE : Nat) (s : BitStream) :
    Except String (BitStream × BitUintV) := do
  let (s, total) ← read_bits_loop s BIT_SIZE
  let u ← BitUint.new BIT_SIZE total
  pure (s, u)

/-- `BitUintV::read_from` (lines 318-326). -/
def BitUintV.read_from (s : BitStream) (size : Nat) :
    Except String (BitStream × BitUintV) := do
  let (s, total) ← read_bits_loop s size
  let u ← BitUintV.new size total
  pure (s, u)

/-- `write_to` (lines 292-299 and 329-335, textually identical loops):
each bit is written through `write_bits(value, 1)`. -/
def BitUintV.write_to (u : BitUintV) (os : OggStream) :
    Except String OggStream :=
  (List.range u.size).foldlM
    (fun st i =>
      write_bits st (if (u.total &&& (1 <<< i)) != 0 then 1 else 0) 1) os

/-! ## ilog and book_maptype1_quantvals (codebook.rs lines 7-39) -/

/-- The loop body of `ilog`.  The Rust loop halves a `u32`, so it runs at
most 32 times; the fuel makes the recursion structural and `32` is enough
for every `u32` input (after 32 halvings any `v < 2^32` is zero). -/
def ilogAux : Nat → Nat → Nat
  | 0, _ => 0
  | fuel + 1, v => if v = 0 then 0 else ilogAux fuel (v / 2) + 1

/-- `ilog` (codebook.rs lines 7-14): the number of binary digits of `v`. -/
def ilog (v : Nat) : Nat := ilogAux 32 v

/-- The `loop` of `book_maptype1_quantvals` (codebook.rs lines 22-38) with
release-mode Rust wrapping:
* `acc`/`acc1` are built by repeated wrapping `u64` multiplication, which
  equals the power reduced `% 2^64`;
* `(vals + 1) as u64` first computes the wrapping `u32` increment;
* `vals -= 1` / `vals += 1` wrap as `u32`.
The fuel models the (possible) divergence of the Rust loop: `none` means
the loop has not returned within `fuel` iterations. -/
def quantvalsLoop (entries dimensions : Nat) : Nat → Nat → Option Nat
  | 0, _ => none
  | fuel + 1, vals =>
    let acc := vals ^ dimensions % 2 ^ 64
    let acc1 := ((vals + 1) % 2 ^ 32) ^ dimensions % 2 ^ 64
    if acc ≤ entries ∧ acc1 > entries then some vals
    else if acc > entries then
      quantvalsLoop entries dimensions fuel ((vals + (2 ^ 32 - 1)) % 2 ^ 32)
    else
      quantvalsLoop entries dimensions fuel ((vals + 1) % 2 ^ 32)

/-- `book_maptype1_quantvals` (codebook.rs lines 17-39).
`shift = ((bits - 1) * (dimensions - 1)) / dimensions` is computed in `i32`
with truncating division; for `entries ≥ 1` the numerator is non-negative
and the `Nat` expression coincides, and for `entries = 0` both the Rust
truncation `-(dimensions-1)/dimensions = 0` and the `Nat` saturation
`(0 - 1) = 0` give `shift = 0`.  `shift ≤ 31` always (it is below
`ilog entries ≤ 32`), so the `u32` shift `entries >> shift` needs no mask.
The fuel `entries + 2` bounds the walk on every input on which the Rust
loop terminates without wrapping (the walk starts at `entries >> shift ≤
entries` and moves one step at a time towards the bracketing value, which
is at most `entries`). -/
def book_maptype1_quantvals (entries dimensions : Nat) : Option Nat :=
  let bits := ilog entries
  let shift := (bits - 1) * (dimensions - 1) / dimensions
  let vals := entries >>> shift
  quantvalsLoop entries dimensions (entries + 2) vals

/-! ## The mode-bits computation (wwriff.rs lines 1207-1212) -/

/-- The mode-section computation of `generate_ogg_header` in compact
(non-full-setup) mode: the 6-bit `mode_count_less1` field is read from the
setup packet, `mode_count = mode_count_less1 + 1`, and the output is
`mode_bits = ilog(mode_count - 1)`. -/
def mode_bits_of (mode_count_less1 : Nat) : Nat :=
  ilog (mode_count_less1 + 1 - 1)

/-- The spec sentence under test for the mode-bit width, taken literally:
`mode_bits = ceil(log2(mode_count - 1))`. -/
def mode_bits_claimed (mode_count : Nat) : Nat := Nat.clog 2 (mode_count - 1)

/-! ## CRC-32 (bit_stream.rs lines 339-414) -/

/-- `CRC_LOOKUP` (bit_stream.rs lines 349-414). -/
def CRC_LOOKUP : List Nat := [
  0x00000000, 0x04c11db7, 0x09823b6e, 0x0d4326d9,
  0x130476dc, 0x17c56b6b, 0x1a864db2, 0x1e475005,
  0x2608edb8, 0x22c9f00f, 0x2f8ad6d6, 0x2b4bcb61,
  0x350c9b64, 0x31cd86d3, 0x3c8ea00a, 0x384fbdbd,
  0x4c11db70, 0x48d0c6c7, 0x4593e01e, 0x4152fda9,
  0x5f15adac, 0x5bd4b01b, 0x569796c2, 0x52568b75,
  0x6a1936c8, 0x6ed82b7f, 0x639b0da6, 0x675a1011,
  0x791d4014, 0x7ddc5da3, 0x709f7b7a, 0x745e66cd,
  0x9823b6e0, 0x9ce2ab57, 0x91a18d8e, 0x95609039,
  0x8b27c03c, 0x8fe6dd8b, 0x82a5fb52, 0x8664e6e5,
  0xbe2b5b58, 0xbaea46ef, 0xb7a96036, 0xb3687d81,
  0xad2f2d84, 0xa9ee3033, 0xa4ad16ea, 0xa06c0b5d,
  0xd4326d90, 0xd0f37027, 0xddb056fe, 0xd9714b49,
  0xc7361b4c, 0xc3f706fb, 0xceb42022, 0xca753d95,
  0xf23a8028, 0xf6fb9d9f, 0xfbb8bb46, 0xff79a6f1,
  0xe13ef6f4, 0xe5ffeb43, 0xe8bccd9a, 0xec7dd02d,
  0x34867077, 0x30476dc0, 0x3d044b19, 0x39c556ae,
  0x278206ab, 0x23431b1c, 0x2e003dc5, 0x2ac12072,
  0x128e9dcf, 0x164f8078, 0x1b0ca6a1, 0x1fcdbb16,
  0x018aeb13, 0x054bf6a4, 0x0808d07d, 0x0cc9cdca,
  0x7897ab07, 0x7c56b6b0, 0x71159069, 0x75d48dde,
  0x6b93dddb, 0x6f52c06c, 0x6211e6b5, 0x66d0fb02,
  0x5e9f46bf, 0x5a5e5b08, 0x571d7dd1, 0x53dc6066,
  0x4d9b3063, 0x495a2dd4, 0x44190b0d, 0x40d816ba,
  0xaca5c697, 0xa864db20, 0xa527fdf9, 0xa1e6e04e,
  0xbfa1b04b, 0xbb60adfc, 0xb6238b25, 0xb2e29692,
  0x8aad2b2f, 0x8e6c3698, 0x832f1041, 0x87ee0df6,
  0x99a95df3, 0x9d684044, 0x902b669d, 0x94ea7b2a,
  0xe0b41de7, 0xe4750050, 0xe9362689, 0xedf73b3e,
  0xf3b06b3b, 0xf771768c, 0xfa325055, 0xfef34de2,
  0xc6bcf05f, 0xc27dede8, 0xcf3ecb31, 0xcbffd686,
  0xd5b88683, 0xd1799b34, 0xdc3abded, 0xd8fba05a,
  0x690ce0ee, 0x6dcdfd59, 0x608edb80, 0x644fc637,
  0x7a089632, 0x7ec98b85, 0x738aad5c, 0x774bb0eb,
  0x4f040d56, 0x4bc510e1, 0x46863638, 0x42472b8f,
  0x5c007b8a, 0x58c1663d, 0x558240e4, 0x51435d53,
  0x251d3b9e, 0x21dc2629, 0x2c9f00f0, 0x285e1d47,
  0x36194d42, 0x32d850f5, 0x3f9b762c, 0x3b5a6b9b,
  0x0315d626, 0x07d4cb91, 0x0a97ed48, 0x0e56f0ff,
  0x1011a0fa, 0x14d0bd4d, 0x19939b94, 0x1d528623,
  0xf12f560e, 0xf5ee4bb9, 0xf8ad6d60, 0xfc6c70d7,
  0xe22b20d2, 0xe6ea3d65, 0xeba91bbc, 0xef68060b,
  0xd727bbb6, 0xd3e6a601, 0xdea580d8, 0xda649d6f,
  0xc423cd6a, 0xc0e2d0dd, 0xcda1f604, 0xc960ebb3,
  0xbd3e8d7e, 0xb9ff90c9, 0xb4bcb610, 0xb07daba7,
  0xae3afba2, 0xaafbe615, 0xa7b8c0cc, 0xa379dd7b,
  0x9b3660c6, 0x9ff77d71, 0x92b45ba8, 0x9675461f,
  0x8832161a, 0x8cf30bad, 0x81b02d74, 0x857130c3,
  0x5d8a9099, 0x594b8d2e, 0x5408abf7, 0x50c9b640,
  0x4e8ee645, 0x4a4ffbf2, 0x470cdd2b, 0x43cdc09c,
  0x7b827d21, 0x7f436096, 0x7200464f, 0x76c15bf8,
  0x68860bfd, 0x6c47164a, 0x61043093, 0x65c52d24,
  0x119b4be9, 0x155a565e, 0x18197087, 0x1cd86d30,
  0x029f3d35, 0x065e2082, 0x0b1d065b, 0x0fdc1bec,
  0x3793a651, 0x3352bbe6, 0x3e119d3f, 0x3ad08088,
  0x2497d08d, 0x2056cd3a, 0x2d15ebe3, 0x29d4f654,
  0xc5a92679, 0xc1683bce, 0xcc2b1d17, 0xc8ea00a0,
  0xd6ad50a5, 0xd26c4d12, 0xdf2f6bcb, 0xdbee767c,
  0xe3a1cbc1, 0xe760d676, 0xea23f0af, 0xeee2ed18,
  0xf0a5bd1d, 0xf464a0aa, 0xf9278673, 0xfde69bc4,
  0x89b8fd09, 0x8d79e0be, 0x803ac667, 0x84fbdbd0,
  0x9abc8bd5, 0x9e7d9662, 0x933eb0bb, 0x97ffad0c,
  0xafb010b1, 0xab710d06, 0xa6322bdf, 0xa2f33668,
  0xbcb4666d, 0xb8757bda, 0xb5365d03, 0xb1f740b4]

/-- `checksum` (bit_stream.rs lines 340-347): table-driven MSB-first CRC
over the first `bytes` elements of `data`, zero initial register, no final
XOR.  `bytes as usize` wraps an `i32` through `i64`/`u64`; data bytes are
`u8`, i.e. `< 256`, and `(crc_reg >> 24) as u8` is the shown `% 256`. -/
def checksum (data : List Nat) (bytes : Int) : Nat :=
  (data.take (bytes % 2 ^ 64).toNat).foldl
    (fun crc_reg b =>
      let index := ((crc_reg >>> 24) % 256) ^^^ b
      ((crc_reg <<< 8) % 2 ^ 32) ^^^ CRC_LOOKUP.getD index 0)
    0

/-- Modelled from the spec: one register step of the published reference
CRC-32 (polynomial 0x04C11DB7, MSB-first, no initial or final XOR), the
algorithm the spec calls "the published reference implementation". -/
def crc32_ref_step (r : Nat) : Nat :=
  if r.testBit 31 then ((r <<< 1) % 2 ^ 32) ^^^ 0x04c11db7
  else (r <<< 1) % 2 ^ 32

/-- Modelled from the spec: absorbing one byte into the reference CRC-32
register: XOR the byte into the top 8 bits, then run 8 register steps. -/
def crc32_ref_byte (r b : Nat) : Nat :=
  crc32_ref_step^[8] (r ^^^ ((b % 256) <<< 24))

/-- Modelled from the spec: the reference CRC-32 of a byte sequence. -/
def crc32_ref (data : List Nat) : Nat := data.foldl crc32_ref_byte 0

/-- The fixed 27-byte Ogg page header template named by the spec:
`"OggS" + 0x00 + 0x02 + zeros` (version 0, header-type 2 = first page,
zero granule/serial/sequence/checksum/segment-count fields). -/
def oggTemplate : List Nat :=
  [0x4f, 0x67, 0x67, 0x53, 0x00, 0x02] ++ List.replicate 21 0

/-! ## CodebookLibrary (codebook.rs lines 41-279) -/

/-- `as usize` on an `i64` (release-mode Rust): wrap modulo `2^64`. -/
def usizeOfInt (n : Int) : Nat := (n % 2 ^ 64).toNat

/-- `as u32` on an `i64` (release-mode Rust): wrap modulo `2^32`. -/
def u32OfInt (n : Int) : Nat := (n % 2 ^ 32).toNat

/-- `u32::from_le_bytes`. -/
def readU32LE (b0 b1 b2 b3 : Nat) : Nat :=
  b0 + 256 * b1 + 65536 * b2 + 16777216 * b3

/-- `i32::from_le_bytes` then `as i64`. -/
def i32OfLEBytes (b0 b1 b2 b3 : Nat) : Int :=
  let u := readU32LE b0 b1 b2 b3
  if u < 2 ^ 31 then (u : Int) else (u : Int) - 2 ^ 32

structure CodebookLibrary where
  codebook_data : Option (List Nat)
  codebook_offsets : Option (List Int)
  codebook_count : Int
  deriving DecidableEq

/-- `CodebookLibrary::new_empty` (lines 50-56). -/
def CodebookLibrary.new_empty : CodebookLibrary := ⟨none, none, 0⟩

/-- `&data[start..stop]`: Rust panics when the range is invalid; the model
returns a distinguished error (unreachable for the well-formed tables the
claims quantify over). -/
def sliceOrPanic (data : List Nat) (start stop : Nat) :
    Except String (List Nat) :=
  if start ≤ stop ∧ stop ≤ data.length then
    Except.ok ((data.drop start).take (stop - start))
  else Except.error "panic: slice index out of range"

/-- `CodebookLibrary::new_from_file` (lines 58-89), with the named file
replaced by its byte contents.  `read_exact` of the data blob fails when
the file is shorter than `offset_offset`; after that check every offset
read below stays inside the file (`4 * codebook_count ≤ file_size -
offset_offset`), so `getD` only reads real bytes. -/
def CodebookLibrary.new_from_file (file : List Nat) :
    Except String CodebookLibrary :=
  let file_size : Int := file.length
  if file_size < 4 then Except.error "File too small"
  else
    let tail := file.drop (file.length - 4)
    let offset_offset : Int :=
      (readU32LE (tail.getD 0 0) (tail.getD 1 0) (tail.getD 2 0)
        (tail.getD 3 0) : Nat)
    let codebook_count : Int := (file_size - offset_offset) / 4
    if usizeOfInt offset_offset > file.length then
      Except.error "IO error: failed to fill whole buffer"
    else
      let codebook_data := file.take (usizeOfInt offset_offset)
      let codebook_offsets :=
        (List.range codebook_count.toNat).map (fun k =>
          let p := usizeOfInt offset_offset + 4 * k
          i32OfLEBytes (file.getD p 0) (file.getD (p + 1) 0)
            (file.getD (p + 2) 0) (file.getD (p + 3) 0))
      Except.ok ⟨some codebook_data, some codebook_offsets, codebook_count⟩

/-- `CodebookLibrary::get_codebook` (lines 91-102).  `offsets[i]` would
panic when `i` is outside the offset table; under the parse invariant
`offsets.length = codebook_count.toNat` the guard `i < codebook_count - 1`
keeps both reads in bounds, so the `getD` default is never produced. -/
def CodebookLibrary.get_codebook (lib : CodebookLibrary) (i : Nat) :
    Except String (List Nat) :=
  match lib.codebook_data, lib.codebook_offsets with
  | some data, some offsets =>
    if i ≥ usizeOfInt (lib.codebook_count - 1) then
      Except.error "Invalid codebook index"
    else
      sliceOrPanic data (usizeOfInt (offsets.getD i 0))
        (usizeOfInt (offsets.getD (i + 1) 0))
  | _, _ => Except.error "codebook library not loaded"

/-- `CodebookLibrary::get_codebook_size` (lines 104-113). -/
def CodebookLibrary.get_codebook_size (lib : CodebookLibrary) (i : Nat) :
    Except String Int :=
  match lib.codebook_offsets with
  | some offsets =>
    if i ≥ usizeOfInt (lib.codebook_count - 1) then
      Except.error "Invalid codebook index"
    else
      Except.ok (offsets.getD (i + 1) 0 - offsets.getD i 0)
  | none => Except.error "codebook library not loaded"

/-- Available bits of a reader, used only to size the fuel of the
`while current_entry < entries` loops. -/
def availableBits (s : BitStream) : Nat := 8 * s.data.length + s.bits_left

/-- The `while current_entry < entries` run-length loop shared by
`rebuild_from_stream` (lines 146-151) and `copy` (lines 226-232).  Every
iteration reads `ilog(entries - current_entry) ≥ 1` bits, so the Rust loop
either exits or fails with "Out of bits" within `availableBits + 1`
iterations; the callers pass that much fuel, making the fuel error
unreachable. -/
def orderedLoop (entries : Nat) :
    Nat → Nat × BitStream × OggStream →
    Except String (Nat × BitStream × OggStream)
  | 0, _ => Except.error "unreachable: ordered-loop fuel exhausted"
  | fuel + 1, (current_entry, bis, os) =>
    if current_entry < entries then do
      let bits := ilog (entries - current_entry)
      let (bis, number) ← BitUintV.read_from bis bits
      let os ← number.write_to os
      orderedLoop entries fuel (current_entry + number.total, bis, os)
    else Except.ok (current_entry, bis, os)

/-- The lookup-table section of `rebuild_from_stream` (lines 176-198).
The first read is a 1-bit `BitUint`, so `lookup_type ∈ {0, 1}` and the
type-2 / invalid branches of the source are dead here (they are live in
`copy`, which reads 4 bits).  A `none` from `book_maptype1_quantvals`
models divergence of the Rust loop and is surfaced as an error. -/
def rebuildLookup (bis : BitStream) (os : OggStream)
    (entries dimensions : Nat) : Except String (BitStream × OggStream) := do
  let (bis, lookup_type) ← BitUint.read_from 1 bis
  let os ← (← BitUint.new 4 lookup_type.total).write_to os
  if lookup_type.total = 0 then pure (bis, os)
  else if lookup_type.total = 1 then do
    let (bis, minv) ← BitUint.read_from 32 bis
    let (bis, maxv) ← BitUint.read_from 32 bis
    let (bis, value_length) ← BitUint.read_from 4 bis
    let (bis, sequence_flag) ← BitUint.read_from 1 bis
    let os ← minv.write_to os
    let os ← maxv.write_to os
    let os ← value_length.write_to os
    let os ← sequence_flag.write_to os
    match book_maptype1_quantvals entries dimensions with
    | none => Except.error "unreachable: book_maptype1_quantvals diverges"
    | some quantvals =>
      (List.range quantvals).foldlM
        (fun (p : BitStream × OggStream) _ => do
          let (bis, val) ← BitUintV.read_from p.1 (value_length.total + 1)
          let os ← val.write_to p.2
          pure (bis, os))
        (bis, os)
  else if lookup_type.total = 2 then
    Except.error "did not expect lookup type 2"
  else Except.error "invalid lookup type"

/-- `rebuild_from_stream` (lines 127-208) up to, but not including, the
final size check. -/
def rebuild_body (bis : BitStream) (os : OggStream) :
    Except String (BitStream × OggStream) := do
  let (bis, dimensions) ← BitUint.read_from 4 bis
  let (bis, entries) ← BitUint.read_from 14 bis
  let os ← (← BitUint.new 24 0x564342).write_to os
  let os ← (← BitUint.new 16 dimensions.total).write_to os
  let os ← (← BitUint.new 24 entries.total).write_to os
  let (bis, ordered) ← BitUint.read_from 1 bis
  let os ← ordered.write_to os
  if ordered.total ≠ 0 then do
    let (bis, initial_length) ← BitUint.read_from 5 bis
    let os ← initial_length.write_to os
    let (current_entry, bis, os) ←
      orderedLoop entries.total (availableBits bis + 1) (0, bis, os)
    if current_entry > entries.total then
      Except.error "current_entry out of range"
    else rebuildLookup bis os entries.total dimensions.total
  else do
    let (bis, codeword_length_length) ← BitUint.read_from 3 bis
    let (bis, sparse) ← BitUint.read_from 1 bis
    if codeword_length_length.total = 0 ∨ codeword_length_length.total > 5 then
      Except.error "nonsense codeword length"
    else do
      let os ← sparse.write_to os
      let (bis, os) ←
        (List.range entries.total).foldlM
          (fun (p : BitStream × OggStream) _ => do
            let (bis, os, present_bool) ←
              if sparse.total ≠ 0 then do
                let (bis, present) ← BitUint.read_from 1 p.1
                let os ← present.write_to p.2
                pure (bis, os, present.total != 0)
              else pure (p.1, p.2, true)
            if present_bool then do
              let (bis, codeword_length) ←
                BitUintV.read_from bis codeword_length_length.total
              let os ← (← BitUint.new 5 codeword_length.total).write_to os
              pure (bis, os)
            else pure (bis, os))
          (bis, os)
      rebuildLookup bis os entries.total dimensions.total

/-- The final size check of `rebuild_from_stream` (lines 199-205). -/
def size_check (cb_size : Nat) (p : BitStream × OggStream) :
    Except String OggStream :=
  if cb_size ≠ 0 ∧ p.1.total_bits_read / 8 + 1 ≠ cb_size then
    Except.error ("Size mismatch: expected " ++ toString cb_size ++
      ", got " ++ toString (p.1.total_bits_read / 8 + 1))
  else Except.ok p.2

/-- `rebuild_from_stream` (lines 127-208): decode and re-emit the packed
codebook, then verify the consumed size.  The returned value is the final
writer state (the Rust function returns `Ok(())` and mutates `os`). -/
def rebuild_from_stream (bis : BitStream) (cb_size : Nat) (os : OggStream) :
    Except String OggStream :=
  rebuild_body bis os >>= size_check cb_size

/-- `CodebookLibrary::rebuild` (lines 115-125). -/
def CodebookLibrary.rebuild (lib : CodebookLibrary) (codebook_id : Nat)
    (os : OggStream) : Except String OggStream := do
  let cb ← lib.get_codebook codebook_id
  let cb_size ← lib.get_codebook_size codebook_id
  if cb.length = 0 ∨ cb_size = -1 then
    Except.error "Invalid codebook id"
  else rebuild_from_stream (BitStream.new cb) (u32OfInt cb_size) os

/-- The lookup-table section of `copy` (lines 253-275); here `lookup_type`
really is 4 bits wide. -/
def copyLookup (bis : BitStream) (os : OggStream)
    (entries dimensions : Nat) : Except String (BitStream × OggStream) := do
  let (bis, lookup_type) ← BitUint.read_from 4 bis
  let os ← lookup_type.write_to os
  if lookup_type.total = 0 then pure (bis, os)
  else if lookup_type.total = 1 then do
    let (bis, minv) ← BitUint.read_from 32 bis
    let (bis, maxv) ← BitUint.read_from 32 bis
    let (bis, value_length) ← BitUint.read_from 4 bis
    let (bis, sequence_flag) ← BitUint.read_from 1 bis
    let os ← minv.write_to os
    let os ← maxv.write_to os
    let os ← value_length.write_to os
    let os ← sequence_flag.write_to os
    match book_maptype1_quantvals entries dimensions with
    | none => Except.error "unreachable: book_maptype1_quantvals diverges"
    | some quantvals =>
      (List.range quantvals).foldlM
        (fun (p : BitStream × OggStream) _ => do
          let (bis, val) ← BitUintV.read_from p.1 (value_length.total + 1)
          let os ← val.write_to p.2
          pure (bis, os))
        (bis, os)
  else if lookup_type.total = 2 then
    Except.error "did not expect lookup type 2"
  else Except.error "invalid lookup type"

/-- `CodebookLibrary::copy` (lines 210-278). -/
def CodebookLibrary.copy (_lib : CodebookLibrary) (bis : BitStream)
    (os : OggStream) : Except String (BitStream × OggStream) := do
  let (bis, id) ← BitUint.read_from 24 bis
  let (bis, dimensions) ← BitUint.read_from 16 bis
  let (bis, entries) ← BitUint.read_from 24 bis
  if id.total ≠ 0x564342 then
    Except.error "invalid codebook identifier"
  else do
    let os ← id.write_to os
    let os ← (← BitUint.new 16 dimensions.total).write_to os
    let os ← (← BitUint.new 24 entries.total).write_to os
    let (bis, ordered) ← BitUint.read_from 1 bis
    let os ← ordered.write_to os
    if ordered.total ≠ 0 then do
      let (bis, initial_length) ← BitUint.read_from 5 bis
      let os ← initial_length.write_to os
      let (current_entry, bis, os) ←
        orderedLoop entries.total (availableBits bis + 1) (0, bis, os)
      if current_entry > entries.total then
        Except.error "current_entry out of range"
      else copyLookup bis os entries.total dimensions.total
    else do
      let (bis, sparse) ← BitUint.read_from 1 bis
      let os ← sparse.write_to os
      let (bis, os) ←
        (List.range entries.total).foldlM
          (fun (p : BitStream × OggStream) _ => do
            let (bis, present) ←
              if sparse.total ≠ 0 then BitUint.read_from 1 p.1
              else do
                let u ← BitUint.new 1 1
                pure (p.1, u)
            let os ← present.write_to p.2
            if present.total ≠ 0 then do
              let (bis, codeword_length) ← BitUint.read_from 5 bis
              let os ← codeword_length.write_to os
              pure (bis, os)
            else pure (bis, os))
          (bis, os)
      copyLookup bis os entries.total dimensions.total

/-! ## The codebook portion of the setup-packet generation
(wwriff.rs lines 977-1004) -/

/-- Lines 977-1004 of `generate_ogg_header`: read the 8-bit
`codebook_count_less1` field from the setup packet, write it out, then emit
`codebook_count = codebook_count_less1 + 1` codebooks.  `codebooks_file`
stands for the contents of the external table file named by
`self.codebooks_name` (only the non-inline branch reads it). -/
def setup_codebooks (inline_codebooks full_setup : Bool)
    (codebooks_file : List Nat) (ss : BitStream) (os : OggStream) :
    Except String (BitStream × OggStream) := do
  let (ss, codebook_count_less1_val) ← BitUint.read_from 8 ss
  let codebook_count_less1 ← BitUint.new 8 codebook_count_less1_val.total
  let codebook_count := codebook_count_less1.total + 1
  let os ← write_bits os codebook_count_less1.total 8
  if inline_codebooks then
    let cbl := CodebookLibrary.new_empty
    (List.range codebook_count).foldlM
      (fun (p : BitStream × OggStream) _ =>
        if full_setup then cbl.copy p.1 p.2
        else do
          let os ← cbl.rebuild 0 p.2
          pure (p.1, os))
      (ss, os)
  else do
    let cbl ← CodebookLibrary.new_from_file codebooks_file
    (List.range codebook_count).foldlM
      (fun (p : BitStream × OggStream) _ => do
        let (ss, codebook_id) ← BitUint.read_from 10 p.1
        match cbl.rebuild codebook_id.total p.2 with
        | Except.ok os => pure (ss, os)
        | Except.error e =>
          if codebook_id.total = 0x342 then do
            let (ss, codebook_identifier) ← BitUint.read_from 14 ss
            if codebook_identifier.total = 0x1590 then
              Except.error "invalid codebook id 0x342, try --full-setup"
            else Except.error e
          else Except.error e)
      (ss, os)

/-! ## Helper lemmas: `ilog` -/

theorem ilogAux_zero : ∀ fuel, ilogAux fuel 0 = 0
  | 0 => rfl
  | _ + 1 => rfl

theorem ilogAux_spec : ∀ fuel v, v < 2 ^ fuel →
    v < 2 ^ ilogAux fuel v ∧ (v ≠ 0 → 2 ^ (ilogAux fuel v - 1) ≤ v) := by
  intro fuel
  induction fuel with
  | zero => intro v hv; interval_cases v; simp [ilogAux]
  | succ n ih =>
    intro v hv
    by_cases h0 : v = 0
    · subst h0; simp [ilogAux]
    · have hlt : v / 2 < 2 ^ n := by
        have : v < 2 ^ n * 2 := by rw [← pow_succ]; exact hv
        omega
      obtain ⟨h1, h2⟩ := ih (v / 2) hlt
      rw [show ilogAux (n + 1) v = ilogAux n (v / 2) + 1 by
        simp [ilogAux, h0]]
      constructor
      · have : v < 2 ^ ilogAux n (v / 2) * 2 := by omega
        rw [pow_succ]; omega
      · intro _
        by_cases hz : v / 2 = 0
        · have hv1 : v = 1 := by omega
          rw [hz, ilogAux_zero]
          simp [hv1]
        · have h2' := h2 hz
          have hk1 : 1 ≤ ilogAux n (v / 2) := by
            rcases Nat.eq_zero_or_pos (ilogAux n (v / 2)) with h | h
            · rw [h] at h1; simp at h1; omega
            · exact h
          have hstep : 2 ^ (ilogAux n (v / 2) - 1 + 1) ≤ v := by
            rw [pow_succ]; omega
          have heq : ilogAux n (v / 2) - 1 + 1 = ilogAux n (v / 2) := by omega
          rw [heq] at hstep
          simpa using hstep

theorem ilog_spec {v : Nat} (hv : v < 2 ^ 32) :
    v < 2 ^ ilog v ∧ (v ≠ 0 → 2 ^ (ilog v - 1) ≤ v) :=
  ilogAux_spec 32 v hv

/-- `ilog v` is the binary length of `v`, i.e. `⌈log₂ (v + 1)⌉`. -/
theorem ilog_eq_clog {v : Nat} (hv : v < 2 ^ 32) :
    ilog v = Nat.clog 2 (v + 1) := by
  obtain ⟨h1, h2⟩ := ilog_spec hv
  by_cases h0 : v = 0
  · subst h0
    have : ilog 0 = 0 := rfl
    rw [this, Nat.clog_one_right]
  · have h2' := h2 h0
    have hk1 : 1 ≤ ilog v := by
      by_contra hne
      have : ilog v = 0 := by omega
      rw [this] at h1; omega
    have hle : Nat.clog 2 (v + 1) ≤ ilog v := by
      rw [← Nat.le_pow_iff_clog_le (by omega)]; omega
    have hge : ilog v ≤ Nat.clog 2 (v + 1) := by
      have : ilog v - 1 < Nat.clog 2 (v + 1) := by
        rw [← Nat.pow_lt_iff_lt_clog (by omega)]; omega
      omega
    omega

/-! ## Claim C3 -/

/-- C3: at `payload_bytes = 65025 = 255 * 255` (reachable via
`write_all`/byte-aligned `write_bits`) the naive segment count is 256,
which exceeds 255, yet `flush_page_internal` does **not** clamp it (the
clamp condition is `segments > MAX_SEGMENTS + 1`, i.e. `> 256`, which never
holds): the page-header segment-count byte wraps to `0` while 256 lacing
entries (the last of length 0) are still emitted — contradicting the
claimed clamp-to-255 behaviour. -/
theorem C3_segment_clamp_dead :
    page_segments 65025 = 256 ∧ ¬ page_segments 65025 ≤ MAX_SEGMENTS ∧
    page_segments_byte 65025 = 0 ∧ (lacing_table 65025).length = 256 ∧
    (lacing_table 65025).getLast? = some 0 := by
  refine ⟨rfl, by decide, rfl, by decide, by decide⟩

/-! ## Claim C5 -/

/-- C5 (counterexample): with `mode_count_less1 = 1` (so `mode_count = 2`)
the code outputs `mode_bits = ilog(1) = 1`, while the claimed formula
`ceil(log2(mode_count - 1)) = ceil(log2 1) = 0` gives 0. -/
theorem C5_mode_bits_counterexample :
    mode_bits_of 1 = 1 ∧ mode_bits_claimed (1 + 1) = 0 ∧ (1 : Nat) ≠ 0 := by
  refine ⟨rfl, ?_, by decide⟩
  show Nat.clog 2 1 = 0
  exact Nat.clog_one_right 2

/-- C5 (amended): in compact mode the mode-bit width output by
`generate_ogg_header` is `ilog(mode_count - 1)`, the binary length of
`mode_count - 1`, which equals `ceil(log2 (mode_count))` — not
`ceil(log2 (mode_count - 1))`.  `mode_count_less1` is a 6-bit field. -/
theorem C5_mode_bits_ilog (mode_count_less1 : Nat)
    (h : mode_count_less1 < 2 ^ 6) :
    mode_bits_of mode_count_less1 =
      Nat.clog 2 (mode_count_less1 + 1) := by
  unfold mode_bits_of
  have : mode_count_less1 + 1 - 1 = mode_count_less1 := by omega
  rw [this]
  exact ilog_eq_clog (by omega)

/-- C5 witness: `mode_count_less1 = 4` (`mode_count = 5`): the code emits
`ilog 4 = 3 = ⌈log₂ 5⌉` bits. -/
theorem C5_mode_bits_ilog_witness :
    (4 : Nat) < 2 ^ 6 ∧ mode_bits_of 4 = Nat.clog 2 5 :=
  ⟨by decide, C5_mode_bits_ilog 4 (by decide)⟩

/-! ## Claim C6 -/

/-- C6: `BitUintV::new` is missing the `size < 32` guard that
`BitUint::new` has, so at the declared width 32 the range bound
`1u32 << 32` overflows (mask-to-`1 << 0` in release mode, panic in debug
mode) and the in-range value `v = 1 < 2^32` is rejected with
"Integer too big" — while the compile-time-width form accepts it. -/
theorem C6_bituintv_width32_bug :
    BitUintV.new 32 1 = Except.error "Integer too big" ∧
    (1 : Nat) < 2 ^ 32 ∧
    BitUint.new 32 1 = Except.ok ⟨32, 1⟩ :=
  ⟨rfl, by decide, rfl⟩

/-! ## Claim C2 -/

/-- C2 (counterexample): at `entries = 2, dimensions = 64` — values a
`copy`-mode codebook header can carry — the wrapping `u64` accumulator
makes `acc = 2^64 mod 2^64 = 0 ≤ 2` on the very first iteration, so the
function returns `vals = 2`, although the unique bracketing value is `1`
(`1^64 ≤ 2 < 2^64`) and `2` itself fails the claimed bracket. -/
theorem C2_quantvals_overflow_counterexample :
    book_maptype1_quantvals 2 64 = some 2 ∧
    (1 : Nat) ^ 64 ≤ 2 ∧ 2 < ((1 : Nat) + 1) ^ 64 ∧
    ¬ ((2 : Nat) ^ 64 ≤ 2) := by
  refine ⟨rfl, by decide, by decide, by decide⟩

/-- One loop step at the bracketing value returns it. -/
theorem quantvalsLoop_at (entries dimensions v : Nat)
    (hd : 1 ≤ dimensions) (h32 : entries + 1 < 2 ^ 32)
    (hov : (entries + 1) ^ dimensions < 2 ^ 64)
    (hv1 : v ^ dimensions ≤ entries) (hv2 : entries < (v + 1) ^ dimensions)
    (fuel : Nat) :
    quantvalsLoop entries dimensions (fuel + 1) v = some v := by
  have hvE : v ≤ entries := le_trans (Nat.le_self_pow (by omega) v) hv1
  have hacc : v ^ dimensions % 2 ^ 64 = v ^ dimensions :=
    Nat.mod_eq_of_lt (by omega)
  have hmod1 : (v + 1) % 2 ^ 32 = v + 1 := by omega
  have hacc1 : ((v + 1) % 2 ^ 32) ^ dimensions % 2 ^ 64 = (v + 1) ^ dimensions := by
    rw [hmod1]
    exact Nat.mod_eq_of_lt
      (lt_of_le_of_lt (Nat.pow_le_pow_left (by omega) dimensions) hov)
  simp only [quantvalsLoop, hacc, hacc1]
  rw [if_pos ⟨hv1, hv2⟩]

/-- Walking down from above the bracketing value converges to it. -/
theorem quantvalsLoop_down (entries dimensions v : Nat)
    (hd : 1 ≤ dimensions) (h32 : entries + 1 < 2 ^ 32)
    (hov : (entries + 1) ^ dimensions < 2 ^ 64)
    (hv1 : v ^ dimensions ≤ entries) (hv2 : entries < (v + 1) ^ dimensions) :
    ∀ fuel w, v < w → w ≤ entries → w - v < fuel →
      quantvalsLoop entries dimensions fuel w = some v := by
  intro fuel
  induction fuel with
  | zero => intro w h1 h2 h3; omega
  | succ f ih =>
    intro w h1 h2 h3
    have hvE : v ≤ entries := le_trans (Nat.le_self_pow (by omega) v) hv1
    have haccv : w ^ dimensions % 2 ^ 64 = w ^ dimensions :=
      Nat.mod_eq_of_lt
        (lt_of_le_of_lt (Nat.pow_le_pow_left (by omega) dimensions) hov)
    have hgt : entries < w ^ dimensions :=
      lt_of_lt_of_le hv2 (Nat.pow_le_pow_left (by omega) dimensions)
    have hacc1 : ((w + 1) % 2 ^ 32) ^ dimensions % 2 ^ 64 =
        ((w + 1) % 2 ^ 32) ^ dimensions := by
      have hm : (w + 1) % 2 ^ 32 ≤ w + 1 := Nat.mod_le _ _
      exact Nat.mod_eq_of_lt
        (lt_of_le_of_lt (Nat.pow_le_pow_left (by omega) dimensions) hov)
    have hdec : (w + (2 ^ 32 - 1)) % 2 ^ 32 = w - 1 := by omega
    simp only [quantvalsLoop, haccv, hacc1, hdec]
    rw [if_neg (by omega), if_pos hgt]
    by_cases hwv : w - 1 = v
    · rw [hwv]
      obtain ⟨f', rfl⟩ : ∃ f', f = f' + 1 := ⟨f - 1, by omega⟩
      exact quantvalsLoop_at entries dimensions v hd h32 hov hv1 hv2 f'
    · exact ih (w - 1) (by omega) (by omega) (by omega)

/-- Walking up from below the bracketing value converges to it. -/
theorem quantvalsLoop_up (entries dimensions v : Nat)
    (hd : 1 ≤ dimensions) (h32 : entries + 1 < 2 ^ 32)
    (hov : (entries + 1) ^ dimensions < 2 ^ 64)
    (hv1 : v ^ dimensions ≤ entries) (hv2 : entries < (v + 1) ^ dimensions) :
    ∀ fuel w, w < v → v - w < fuel →
      quantvalsLoop entries dimensions fuel w = some v := by
  intro fuel
  induction fuel with
  | zero => intro w h1 h3; omega
  | succ f ih =>
    intro w h1 h3
    have hvE : v ≤ entries := le_trans (Nat.le_self_pow (by omega) v) hv1
    have hwd : w ^ dimensions ≤ entries :=
      le_trans (Nat.pow_le_pow_left (by omega) dimensions) hv1
    have hw1d : (w + 1) ^ dimensions ≤ entries :=
      le_trans (Nat.pow_le_pow_left (by omega) dimensions) hv1
    have haccv : w ^ dimensions % 2 ^ 64 = w ^ dimensions :=
      Nat.mod_eq_of_lt (by omega)
    have hmod1 : (w + 1) % 2 ^ 32 = w + 1 := by omega
    have hacc1 : ((w + 1) % 2 ^ 32) ^ dimensions % 2 ^ 64 = (w + 1) ^ dimensions := by
      rw [hmod1]; exact Nat.mod_eq_of_lt (by omega)
    simp only [quantvalsLoop, haccv, hacc1, hmod1]
    rw [if_neg (by omega), if_neg (by omega)]
    by_cases hwv : w + 1 = v
    · rw [hwv]
      obtain ⟨f', rfl⟩ : ∃ f', f = f' + 1 := ⟨f - 1, by omega⟩
      exact quantvalsLoop_at entries dimensions v hd h32 hov hv1 hv2 f'
    · exact ih (w + 1) (by omega) (by omega)

/-- C2 (amended): for every `entries ≥ 1` and `dimensions ≥ 1` within the
overflow-free domain (`entries + 1 < 2^32` so the `u32` increment cannot
wrap, and `(entries+1)^dimensions < 2^64` so the `u64` accumulators cannot
wrap — every codebook-reachable input of `rebuild` satisfies both),
`book_maptype1_quantvals` terminates and returns any, hence the unique,
`vals` with `vals^dimensions ≤ entries < (vals+1)^dimensions`; in
particular 16 for (256, 2) and 3 for (81, 4).  Outside this domain the
wrapping `u64` arithmetic can return a non-bracketing value (see the
counterexample at entries = 2, dimensions = 64). -/
theorem C2_quantvals_bracketing (entries dimensions v : Nat)
    (hE : 1 ≤ entries) (hd : 1 ≤ dimensions)
    (h32 : entries + 1 < 2 ^ 32)
    (hov : (entries + 1) ^ dimensions < 2 ^ 64)
    (hv1 : v ^ dimensions ≤ entries) (hv2 : entries < (v + 1) ^ dimensions) :
    book_maptype1_quantvals entries dimensions = some v := by
  have hvE : v ≤ entries := le_trans (Nat.le_self_pow (by omega) v) hv1
  simp only [book_maptype1_quantvals]
  set w0 := entries >>> ((ilog entries - 1) * (dimensions - 1) / dimensions)
    with hw0def
  have hv0E : w0 ≤ entries := by
    rw [hw0def, Nat.shiftRight_eq_div_pow]; exact Nat.div_le_self _ _
  clear hw0def
  clear_value w0
  rcases Nat.lt_trichotomy w0 v with h | h | h
  · exact quantvalsLoop_up entries dimensions v hd h32 hov hv1 hv2 _ _ h (by omega)
  · rw [h]
    have h2 : entries + 2 = (entries + 1) + 1 := by omega
    rw [h2]
    exact quantvalsLoop_at entries dimensions v hd h32 hov hv1 hv2 _
  · exact quantvalsLoop_down entries dimensions v hd h32 hov hv1 hv2 _ _ h hv0E
      (by omega)

/-- C2 witness: both spec instances, through the amended theorem. -/
theorem C2_quantvals_bracketing_witness :
    book_maptype1_quantvals 256 2 = some 16 ∧
    book_maptype1_quantvals 81 4 = some 3 :=
  ⟨C2_quantvals_bracketing 256 2 16 (by decide) (by decide) (by decide)
      (by decide) (by decide) (by decide),
   C2_quantvals_bracketing 81 4 3 (by decide) (by decide) (by decide)
      (by decide) (by decide) (by decide)⟩

/-! ## Helper lemmas: `Except` bind -/

theorem exceptBind_ok {α β : Type} (a : α) (f : α → Except String β) :
    (Except.ok a >>= f) = f a := rfl

theorem exceptBind_error {α β : Type} (e : String)
    (f : α → Except String β) :
    ((Except.error e : Except String α) >>= f) = Except.error e := rfl

theorem bind_isOk_false {α β : Type} (x : Except String α)
    (f : α → Except String β) (h : ∀ a, (f a).isOk = false) :
    (x >>= f).isOk = false := by
  cases x with
  | error e => rfl
  | ok a => exact h a

/-! ## Claim C8 -/

/-- C8 (counterexample to the claim as stated): a 4-byte packed codebook
(dimensions 1, entries 1, ordered codeword lengths with one run of length
1, lookup type 0) decodes in exactly 26 bits.  With recorded size 4,
`rebuild_from_stream` succeeds — the code compares `26 / 8 + 1 = 4` —
although the claimed quantity "total bits consumed rounded up to the next
byte, plus 1" is `⌈26/8⌉ + 1 = 5 ≠ 4`, under which the claim demands a
size-mismatch failure. -/
theorem C8_size_check_counterexample :
    (rebuild_body (BitStream.new [0x11, 0x00, 0x0C, 0x01])
        OggStream.init).map (fun p => p.1.total_bits_read) =
      Except.ok 26 ∧
    (rebuild_from_stream (BitStream.new [0x11, 0x00, 0x0C, 0x01]) 4
        OggStream.init).isOk = true ∧
    ((26 + 7) / 8 + 1 : Nat) ≠ 4 := by
  refine ⟨rfl, rfl, by decide⟩

/-- C8 (amended): `rebuild_from_stream` is its decoding body followed by
the size check; the check fails — with the size-mismatch error — iff the
recorded size is nonzero and `total_bits_read / 8 + 1` (bits consumed
truncated to whole bytes, plus one) differs from it, and succeeds on a
match (or a zero recorded size, which `rebuild` never passes, since it
rejects empty codebooks first).  Decoding errors propagate unchanged, so a
size-mismatch error arises in no other way. -/
theorem C8_size_check_characterization (bis : BitStream) (os : OggStream)
    (cb_size : Nat) :
    (∀ p, rebuild_body bis os = Except.ok p →
      (cb_size ≠ 0 ∧ p.1.total_bits_read / 8 + 1 ≠ cb_size →
        rebuild_from_stream bis cb_size os =
          Except.error ("Size mismatch: expected " ++ toString cb_size ++
            ", got " ++ toString (p.1.total_bits_read / 8 + 1))) ∧
      (cb_size = 0 ∨ p.1.total_bits_read / 8 + 1 = cb_size →
        rebuild_from_stream bis cb_size os = Except.ok p.2)) ∧
    (∀ e, rebuild_body bis os = Except.error e →
      rebuild_from_stream bis cb_size os = Except.error e) := by
  constructor
  · intro p hp
    constructor
    · intro hcond
      unfold rebuild_from_stream
      rw [hp, exceptBind_ok]
      unfold size_check
      rw [if_pos hcond]
    · intro hcond
      unfold rebuild_from_stream
      rw [hp, exceptBind_ok]
      unfold size_check
      rw [if_neg (by tauto)]
  · intro e he
    unfold rebuild_from_stream
    rw [he, exceptBind_error]

/-- C8 witness: the amended theorem applied to the concrete 4-byte packed
codebook: 26 bits consumed, `26 / 8 + 1 = 4` matches the recorded size, so
the rebuild succeeds. -/
theorem C8_size_check_characterization_witness :
    (rebuild_from_stream (BitStream.new [0x11, 0x00, 0x0C, 0x01]) 4
        OggStream.init).isOk = true := by
  have h := ((C8_size_check_characterization
      (BitStream.new [0x11, 0x00, 0x0C, 0x01]) OggStream.init 4).1 _
      rfl).2 (Or.inr (by decide))
  rw [h]
  rfl

/-! ## Claim C9 -/

/-- C9: a library parsed from a well-formed table file (at least one
offset; offsets non-negative, non-decreasing and bounded by the blob
length) rejects every index `i ≥ count - 1` of both `get_codebook` and
`get_codebook_size` with the range error, and for `i < count - 1` returns
exactly the blob slice `offsets[i]..offsets[i+1]` and its length; with one
codebook spanning the whole blob and offsets `[0, N]` this yields the full
blob and size `N` (see the witness). -/
theorem C9_get_codebook_range (file : List Nat) (data : List Nat)
    (offs : List Int) (count : Int)
    (hparse : CodebookLibrary.new_from_file file =
      Except.ok ⟨some data, some offs, count⟩)
    (hcount : 1 ≤ count)
    (hmono : ∀ j < offs.length - 1, offs.getD j 0 ≤ offs.getD (j + 1) 0)
    (hnonneg : ∀ j < offs.length, 0 ≤ offs.getD j 0)
    (hbound : ∀ j < offs.length, offs.getD j 0 ≤ (data.length : Int))
    (hlen : file.length < 2 ^ 64)
    (i : Nat) :
    (i ≥ (count - 1).toNat →
      CodebookLibrary.get_codebook ⟨some data, some offs, count⟩ i =
        Except.error "Invalid codebook index" ∧
      CodebookLibrary.get_codebook_size ⟨some data, some offs, count⟩ i =
        Except.error "Invalid codebook index") ∧
    (i < (count - 1).toNat →
      CodebookLibrary.get_codebook ⟨some data, some offs, count⟩ i =
        Except.ok ((data.drop (offs.getD i 0).toNat).take
          ((offs.getD (i + 1) 0).toNat - (offs.getD i 0).toNat)) ∧
      CodebookLibrary.get_codebook_size ⟨some data, some offs, count⟩ i =
        Except.ok (offs.getD (i + 1) 0 - offs.getD i 0)) := by
  -- Extract the parse equations.
  simp only [CodebookLibrary.new_from_file] at hparse
  split_ifs at hparse with h1 h2
  simp only [Except.ok.injEq, CodebookLibrary.mk.injEq, Option.some.injEq]
    at hparse
  obtain ⟨hdata, hoffs, hcnt⟩ := hparse
  -- Bounds on `count`.
  have hoffnn : (0 : Int) ≤
      ((readU32LE ((file.drop (file.length - 4)).getD 0 0)
        ((file.drop (file.length - 4)).getD 1 0)
        ((file.drop (file.length - 4)).getD 2 0)
        ((file.drop (file.length - 4)).getD 3 0) : Nat) : Int) :=
    Int.natCast_nonneg _
  have hcountlen : count < 2 ^ 64 := by
    rw [← hcnt]
    have hnum : (file.length : Int) -
        ((readU32LE ((file.drop (file.length - 4)).getD 0 0)
          ((file.drop (file.length - 4)).getD 1 0)
          ((file.drop (file.length - 4)).getD 2 0)
          ((file.drop (file.length - 4)).getD 3 0) : Nat) : Int) ≤
        (file.length : Int) := by omega
    calc ((file.length : Int) - _) / 4 ≤ (file.length : Int) / 4 :=
          Int.ediv_le_ediv (by omega) hnum
      _ ≤ (file.length : Int) := Int.ediv_le_self _ (Int.natCast_nonneg _)
      _ < 2 ^ 64 := by exact_mod_cast hlen
  have hcu : usizeOfInt (count - 1) = (count - 1).toNat := by
    unfold usizeOfInt
    rw [Int.emod_eq_of_lt (by omega) (by omega)]
  have hofflen : offs.length = count.toNat := by
    rw [← hoffs, List.length_map, List.length_range, hcnt]
  constructor
  · intro hi
    simp only [CodebookLibrary.get_codebook, CodebookLibrary.get_codebook_size]
    rw [hcu]
    constructor <;> rw [if_pos hi]
  · intro hi
    have hi1 : i + 1 < offs.length := by omega
    have hilt : i < offs.length := by omega
    have hoi := hnonneg i hilt
    have hoi1 := hnonneg (i + 1) hi1
    have hm := hmono i (by omega)
    have hb := hbound (i + 1) hi1
    have hdl : (data.length : Int) < 2 ^ 64 := by
      have : data.length ≤ file.length := by
        rw [← hdata]; exact (List.length_take _ _).trans_le (by omega)
      omega
    have hu1 : usizeOfInt (offs.getD i 0) = (offs.getD i 0).toNat := by
      unfold usizeOfInt
      rw [Int.emod_eq_of_lt (by omega) (by omega)]
    have hu2 : usizeOfInt (offs.getD (i + 1) 0) = (offs.getD (i + 1) 0).toNat := by
      unfold usizeOfInt
      rw [Int.emod_eq_of_lt (by omega) (by omega)]
    simp only [CodebookLibrary.get_codebook, CodebookLibrary.get_codebook_size]
    rw [hcu]
    constructor
    · rw [if_neg (by omega), hu1, hu2]
      unfold sliceOrPanic
      rw [if_pos (by constructor <;> omega)]
    · rw [if_neg (by omega)]

/-- C9 witness: the file `[9,8,7] ++ LE(0) ++ LE(3)` (blob `[9,8,7]`, one
codebook, offsets `[0, 3]`, where the trailing offset-table pointer doubles
as the final offset): index 0 yields the whole blob and size 3; index
`1 ≥ count - 1` is rejected by both accessors. -/
theorem C9_get_codebook_range_witness :
    CodebookLibrary.new_from_file [9, 8, 7, 0, 0, 0, 0, 3, 0, 0, 0] =
      Except.ok ⟨some [9, 8, 7], some [0, 3], 2⟩ ∧
    CodebookLibrary.get_codebook ⟨some [9, 8, 7], some [0, 3], 2⟩ 0 =
      Except.ok [9, 8, 7] ∧
    CodebookLibrary.get_codebook_size ⟨some [9, 8, 7], some [0, 3], 2⟩ 0 =
      Except.ok 3 ∧
    CodebookLibrary.get_codebook ⟨some [9, 8, 7], some [0, 3], 2⟩ 1 =
      Except.error "Invalid codebook index" ∧
    CodebookLibrary.get_codebook_size ⟨some [9, 8, 7], some [0, 3], 2⟩ 1 =
      Except.error "Invalid codebook index" := by
  have h0 := (C9_get_codebook_range [9, 8, 7, 0, 0, 0, 0, 3, 0, 0, 0]
      [9, 8, 7] [0, 3] 2 rfl (by decide) (by decide) (by decide) (by decide)
      (by decide) 0).2 (by decide)
  have h1 := (C9_get_codebook_range [9, 8, 7, 0, 0, 0, 0, 3, 0, 0, 0]
      [9, 8, 7] [0, 3] 2 rfl (by decide) (by decide) (by decide) (by decide)
      (by decide) 1).1 (by decide)
  exact ⟨rfl, h0.1, h0.2, h1.1, h1.2⟩

/-! ## Claim C10 -/

/-- C10: with `inline_codebooks = true` and `full_setup = false` the
codebook section of the setup-packet generation fails on every input: the
codebook count is the 8-bit count-less-one field plus one, hence at least
1, and the first iteration already calls `rebuild(0)` on the empty
library, whose `get_codebook` unconditionally fails with the
library-not-loaded error.  `generate_ogg_header` executes this section on
every control path that reaches the setup packet and propagates its error
with `?`, so this mode combination can never produce a setup page. -/
theorem C10_inline_without_full_setup_fails (codebooks_file : List Nat)
    (ss : BitStream) (os : OggStream) :
    (∀ i os', CodebookLibrary.new_empty.get_codebook i =
        Except.error "codebook library not loaded" ∧
      CodebookLibrary.new_empty.rebuild i os' =
        Except.error "codebook library not loaded") ∧
    (setup_codebooks true false codebooks_file ss os).isOk = false := by
  refine ⟨fun i os' => ⟨rfl, rfl⟩, ?_⟩
  unfold setup_codebooks
  apply bind_isOk_false
  intro p
  obtain ⟨ss1, u1⟩ := p
  apply bind_isOk_false
  intro u
  apply bind_isOk_false
  intro os1
  dsimp only
  rw [List.range_succ_eq_map, List.foldlM_cons]
  rfl

/-! ## Helper lemmas: bit arithmetic -/

theorem or_two_pow {a k : Nat} (h : a < 2 ^ k) : a ||| 2 ^ k = a + 2 ^ k := by
  apply Nat.eq_of_testBit_eq
  intro j
  rw [Nat.add_comm a]
  rcases Nat.lt_trichotomy j k with hj | hj | hj
  · rw [Nat.testBit_two_pow_add_gt hj, Nat.testBit_or,
      Nat.testBit_two_pow_of_ne (by omega), Bool.or_false]
  · subst hj
    rw [Nat.testBit_two_pow_add_eq, Nat.testBit_or, Nat.testBit_two_pow_self,
      Nat.testBit_lt_two_pow h, Bool.false_or]
    rfl
  · have hlt : 2 ^ k + a < 2 ^ j := by
      have h1 : 2 ^ k + a < 2 ^ (k + 1) := by
        have := pow_succ 2 k; omega
      have h2 : 2 ^ (k + 1) ≤ 2 ^ j := Nat.pow_le_pow_right (by omega) (by omega)
      omega
    rw [Nat.testBit_lt_two_pow hlt, Nat.testBit_or,
      Nat.testBit_two_pow_of_ne (by omega),
      Nat.testBit_lt_two_pow (lt_trans h (Nat.pow_lt_pow_right (by omega) hj)),
      Bool.or_false]

/-- `(if b then x ||| (1 <<< k) else x) = x + 2^k * b.toNat` when `x < 2^k`. -/
theorem or_shift_toNat {x k : Nat} (b : Bool) (h : x < 2 ^ k) :
    (if b then x ||| (1 <<< k) else x) = x + 2 ^ k * b.toNat := by
  cases b
  · simp
  · rw [if_pos rfl, Nat.one_shiftLeft, or_two_pow h]
    simp [Nat.mul_one]

/-- One LSB-first accumulation step: extending `w % 2^k` with bit `k`. -/
theorem acc_step {w k acc : Nat} (h : acc = w % 2 ^ k) :
    (if w.testBit k then acc ||| (1 <<< k) else acc) = w % 2 ^ (k + 1) := by
  have hacclt : acc < 2 ^ k := by
    rw [h]; exact Nat.mod_lt _ (Nat.pos_pow_of_pos _ (by omega))
  have hmod : w % 2 ^ (k + 1) = w % 2 ^ k + 2 ^ k * (w / 2 ^ k % 2) := by
    rw [pow_succ]; exact Nat.mod_mul
  rw [or_shift_toNat _ hacclt, Nat.toNat_testBit, h, hmod]

/-- LSB-first bit sums reconstruct residues: `∑_{t<r} 2^t·bit_t(w) = w % 2^r`. -/
theorem sum_testBit_mod (w : Nat) :
    ∀ r, (∑ t ∈ Finset.range r, 2 ^ t * (w.testBit t).toNat) = w % 2 ^ r := by
  intro r
  induction r with
  | zero => simp [Nat.mod_one]
  | succ n ih =>
    rw [Finset.sum_range_succ, ih, Nat.toNat_testBit, pow_succ,
      Nat.mod_mul]

/-- The writer tests bits through `total & (1 << i)`. -/
theorem bit_of_and (v i : Nat) : ((v &&& (1 <<< i)) != 0) = v.testBit i := by
  rw [Nat.one_shiftLeft, Nat.and_two_pow]
  cases hb : v.testBit i <;> simp [hb]

/-- The reader tests bits through `buf & (0x80 >> bits_left)`. -/
theorem bit_of_and_two_pow (buf j : Nat) :
    ((buf &&& 2 ^ j) != 0) = buf.testBit j := by
  rw [Nat.and_two_pow]
  cases hb : buf.testBit j <;> simp [hb]

theorem mod32_byte_add {k j : Nat} (hj : j < 8) :
    (8 * k + j) % 32 = (8 * k) % 32 + j := by
  omega

/-! ## Helper lemmas: the writer loops -/

theorem exceptBind_pure {α : Type} (x : Except String α) :
    (x >>= pure) = x := by
  cases x <;> rfl

theorem foldlM_congr_fn {α σ : Type} (l : List α)
    (f g : σ → α → Except String σ) (h : ∀ s a, f s a = g s a) :
    ∀ s, l.foldlM f s = l.foldlM g s := by
  induction l with
  | nil => intro s; rfl
  | cons x xs ih =>
    intro s
    rw [List.foldlM_cons, List.foldlM_cons, h]
    cases g s x with
    | error e => rfl
    | ok s' => rw [exceptBind_ok, exceptBind_ok]; exact ih s'

/-- `put_bit` below the flush threshold just accumulates the bit. -/
theorem put_bit_step {bb k : Nat} {P : List Nat} (b : Bool) (hk : k < 7)
    (hbb : bb < 2 ^ k) :
    put_bit ⟨bb, k, P⟩ b = Except.ok ⟨bb + 2 ^ k * b.toNat, k + 1, P⟩ := by
  unfold put_bit
  rw [if_neg (by simp; omega)]
  rw [or_shift_toNat b hbb]

/-- The 8th `put_bit` flushes the completed byte into the payload. -/
theorem put_bit_last {bb : Nat} {P : List Nat} (b : Bool) (hbb : bb < 2 ^ 7)
    (hroom : P.length < 65025) :
    put_bit ⟨bb, 7, P⟩ b = Except.ok ⟨0, 0, P ++ [bb + 2 ^ 7 * b.toNat]⟩ := by
  unfold put_bit
  rw [if_pos (by simp)]
  unfold flush_bits
  simp only [SEGMENT_SIZE, MAX_SEGMENTS, HEADER_BYTES, pageCapacity]
  rw [if_pos (by simp)]
  rw [if_neg (by simp; omega), if_neg (by simp; omega)]
  rw [or_shift_toNat b hbb]

/-- Eight aligned `put_bit`s append exactly one byte whose value is the
LSB-first sum of the eight bits. -/
theorem putBits_byte (β : Nat → Bool) (off : Nat) (P : List Nat)
    (hroom : P.length < 65025) :
    (List.range 8).foldlM
        (fun st i => put_bit st (β (off + i))) (⟨0, 0, P⟩ : OggStream) =
      Except.ok ⟨0, 0,
        P ++ [∑ t ∈ Finset.range 8, 2 ^ t * (β (off + t)).toNat]⟩ := by
  have hb : ∀ t, (β (off + t)).toNat ≤ 1 := fun t => Bool.toNat_le _
  have h0 := hb 0; have h1 := hb 1; have h2 := hb 2; have h3 := hb 3
  have h4 := hb 4; have h5 := hb 5; have h6 := hb 6; have h7 := hb 7
  rw [show List.range 8 = [0, 1, 2, 3, 4, 5, 6, 7] from rfl]
  rw [List.foldlM_cons, put_bit_step _ (by omega) (by omega), exceptBind_ok]
  rw [List.foldlM_cons, put_bit_step _ (by omega) (by omega), exceptBind_ok]
  rw [List.foldlM_cons, put_bit_step _ (by omega) (by omega), exceptBind_ok]
  rw [List.foldlM_cons, put_bit_step _ (by omega) (by omega), exceptBind_ok]
  rw [List.foldlM_cons, put_bit_step _ (by omega) (by omega), exceptBind_ok]
  rw [List.foldlM_cons, put_bit_step _ (by omega) (by omega), exceptBind_ok]
  rw [List.foldlM_cons, put_bit_step _ (by omega) (by omega), exceptBind_ok]
  rw [List.foldlM_cons, put_bit_last _ (by omega) hroom, exceptBind_ok]
  show Except.ok _ = _
  congr 2
  simp [Finset.sum_range_succ]

/-- `8*k` aligned `put_bit`s append exactly `k` bytes. -/
theorem putBits_chunks (β : Nat → Bool) :
    ∀ (k : Nat) (P : List Nat), P.length + k ≤ 65025 →
      (List.range (8 * k)).foldlM
          (fun st i => put_bit st (β i)) (⟨0, 0, P⟩ : OggStream) =
        Except.ok ⟨0, 0, P ++ (List.range k).map (fun m =>
          ∑ t ∈ Finset.range 8, 2 ^ t * (β (8 * m + t)).toNat)⟩ := by
  intro k
  induction k with
  | zero => intro P _; simp; rfl
  | succ n ih =>
    intro P hroom
    rw [show 8 * (n + 1) = 8 * n + 8 from rfl, List.range_add,
      List.foldlM_append, ih P (by omega), exceptBind_ok, List.foldlM_map]
    rw [putBits_byte β (8 * n) _ (by simp; omega)]
    rw [List.range_succ, List.map_append]
    simp

/-- `r < 8` further `put_bit`s from an aligned state only fill the pending
accumulator. -/
theorem putBits_partial (β : Nat → Bool) :
    ∀ (r : Nat), r < 8 → ∀ (off : Nat) (P : List Nat),
      (List.range r).foldlM
          (fun st i => put_bit st (β (off + i))) (⟨0, 0, P⟩ : OggStream) =
        Except.ok ⟨∑ t ∈ Finset.range r, 2 ^ t * (β (off + t)).toNat, r, P⟩ := by
  have key : ∀ (r : Nat), r < 8 → ∀ (off : Nat) (P : List Nat),
      (List.range r).foldlM
          (fun st i => put_bit st (β (off + i))) (⟨0, 0, P⟩ : OggStream) =
        Except.ok ⟨∑ t ∈ Finset.range r, 2 ^ t * (β (off + t)).toNat, r, P⟩ ∧
      (∑ t ∈ Finset.range r, 2 ^ t * (β (off + t)).toNat) < 2 ^ r := by
    intro r
    induction r with
    | zero =>
      intro _ off P
      constructor
      · simp; rfl
      · simp
    | succ n ih =>
      intro hr off P
      obtain ⟨ihf, ihb⟩ := ih (by omega) off P
      constructor
      · rw [List.range_succ, List.foldlM_append, ihf, exceptBind_ok,
          List.foldlM_cons, put_bit_step _ (by omega) ihb, exceptBind_ok,
          Finset.sum_range_succ]
        rfl
      · rw [Finset.sum_range_succ]
        have hle : (β (off + n)).toNat ≤ 1 := Bool.toNat_le _
        have he : 2 ^ n * (β (off + n)).toNat ≤ 2 ^ n := by
          calc 2 ^ n * (β (off + n)).toNat ≤ 2 ^ n * 1 :=
                Nat.mul_le_mul_left _ hle
            _ = 2 ^ n := Nat.mul_one _
        have h2 : (2 : Nat) ^ (n + 1) = 2 ^ n * 2 := pow_succ 2 n
        omega
  exact fun r hr off P => (key r hr off P).1

/-- The byte-aligned fast path appends the `k` little-endian bytes of
`value` (release-mode shift masking included). -/
theorem bytePath_spec (value : Nat) :
    ∀ (k : Nat) (bb bs : Nat) (P : List Nat), P.length + k ≤ 65025 →
      write_bits_byte_path ⟨bb, bs, P⟩ value (8 * k) =
        Except.ok ⟨bb, bs, P ++ (List.range k).map (fun i =>
          (value >>> ((i * 8) % 32)) &&& 0xFF)⟩ := by
  have main : ∀ (k : Nat) (bb bs : Nat) (P : List Nat), P.length + k ≤ 65025 →
      (List.range k).foldlM
          (fun (st : OggStream) i =>
            if HEADER_BYTES + MAX_SEGMENTS + st.payload.length ≥ pageCapacity
            then Except.error "page buffer overflow"
            else Except.ok ⟨st.bit_buffer, st.bits_stored,
              st.payload ++ [(value >>> ((i * 8) % 32)) &&& 0xFF]⟩)
          (⟨bb, bs, P⟩ : OggStream) =
        Except.ok ⟨bb, bs, P ++ (List.range k).map (fun i =>
          (value >>> ((i * 8) % 32)) &&& 0xFF)⟩ := by
    intro k
    induction k with
    | zero => intro bb bs P _; simp; rfl
    | succ n ih =>
      intro bb bs P hroom
      rw [List.range_succ, List.foldlM_append, ih bb bs P (by omega),
        exceptBind_ok, List.foldlM_cons]
      rw [if_neg (by
        simp only [HEADER_BYTES, MAX_SEGMENTS, pageCapacity, SEGMENT_SIZE]
        simp
        omega)]
      rw [exceptBind_ok, List.map_append]
      show Except.ok _ = _
      simp
  intro k bb bs P hroom
  unfold write_bits_byte_path
  rw [show 8 * k / 8 = k by omega]
  exact main k bb bs P hroom

/-! ## Helper lemmas: the reader loop -/

theorem two_pow_shiftRight {a b : Nat} (h : b ≤ a) :
    2 ^ a >>> b = 2 ^ (a - b) := by
  rw [Nat.shiftRight_eq_div_pow, Nat.pow_div h (by omega)]

theorem and_one_bang (x : Nat) : ((x &&& 1) != 0) = x.testBit 0 := by
  have h := bit_of_and_two_pow x 0
  simpa using h

theorem getD_eq_getElem_of_lt {L : List Nat} {n : Nat} (h : n < L.length) :
    L.getD n 0 = L[n] := by
  rw [List.getD_eq_getElem?_getD, List.getElem?_eq_getElem h]
  rfl

/-- Invariant of `read_bits_loop` over a byte list whose bits agree with
`v`: after `n` bits the accumulator holds `v % 2^n` and the reader sits on
bit `n` of the byte sequence. -/
theorem read_loop_inv (L : List Nat) (v width : Nat)
    (hlen : width ≤ 8 * L.length)
    (hbits : ∀ i, i < width →
      (L.getD (i / 8) 0).testBit (i % 8) = v.testBit i) :
    ∀ n, n ≤ width → ∃ buf,
      read_bits_loop (BitStream.new L) n =
        Except.ok (⟨L.drop ((n + 7) / 8), buf, (8 - n % 8) % 8, n⟩,
          v % 2 ^ n) ∧
      (n % 8 ≠ 0 → buf = L.getD (n / 8) 0) := by
  intro n
  induction n with
  | zero =>
    intro _
    refine ⟨0, ?_, by omega⟩
    simp [read_bits_loop, BitStream.new, Nat.mod_one]
    rfl
  | succ n ih =>
    intro hn1
    obtain ⟨buf, hfold, hbuf⟩ := ih (by omega)
    have hstep : read_bits_loop (BitStream.new L) (n + 1) =
        read_bits_loop (BitStream.new L) n >>=
          (fun p => (do
            let (b, s') ← get_bit p.1
            pure (s', if b then p.2 ||| (1 <<< n) else p.2) :
              Except String (BitStream × Nat))) := by
      unfold read_bits_loop
      rw [List.range_succ, List.foldlM_append]
      congr 1
      funext p
      rw [List.foldlM_cons]
      show _ = _
      cases hg : get_bit p.1 with
      | error e => rfl
      | ok q => rfl
    rw [hstep, hfold, exceptBind_ok]
    by_cases hmod : n % 8 = 0
    · -- a fresh byte is fetched
      have hidx : n / 8 < L.length := by omega
      have hdrop : L.drop ((n + 7) / 8) = L[n / 8] :: L.drop (n / 8 + 1) := by
        rw [show (n + 7) / 8 = n / 8 by omega, List.drop_eq_getElem_cons hidx]
      refine ⟨L[n / 8], ?_, ?_⟩
      · show (do
            let (b, s') ← get_bit ⟨L.drop ((n + 7) / 8), buf,
              (8 - n % 8) % 8, n⟩
            pure (s', if b then (v % 2 ^ n) ||| (1 <<< n) else v % 2 ^ n) :
              Except String (BitStream × Nat)) = _
        rw [hdrop, show ((8 : Nat) - n % 8) % 8 = 0 from by omega]
        unfold get_bit
        dsimp only
        rw [if_pos rfl]
        simp only [exceptBind_ok]
        have hbit : ((L[n / 8] &&& (0x80 >>> (8 - 1))) != 0) = v.testBit n := by
          rw [show (0x80 : Nat) >>> (8 - 1) = 1 from rfl, and_one_bang,
            ← getD_eq_getElem_of_lt hidx]
          have := hbits n (by omega)
          rw [hmod] at this
          exact this
        rw [hbit]  -- may need adjusting
        rw [acc_step rfl]
        have e1 : (n + 1 + 7) / 8 = n / 8 + 1 := by omega
        have e2 : (8 - (n + 1) % 8) % 8 = 7 := by omega
        rw [e1, e2]
        rfl
      · intro _
        rw [show (n + 1) / 8 = n / 8 from by omega,
          getD_eq_getElem_of_lt hidx]
    · -- bits remain in the buffered byte
      have hbuf' := hbuf hmod
      refine ⟨buf, ?_, ?_⟩
      · show (do
            let (b, s') ← get_bit ⟨L.drop ((n + 7) / 8), buf,
              (8 - n % 8) % 8, n⟩
            pure (s', if b then (v % 2 ^ n) ||| (1 <<< n) else v % 2 ^ n) :
              Except String (BitStream × Nat)) = _
        unfold get_bit
        dsimp only
        rw [if_neg (by omega)]
        simp only [exceptBind_ok]
        have hmask : (0x80 : Nat) >>> ((8 - n % 8) % 8 - 1) = 2 ^ (n % 8) := by
          rw [show (0x80 : Nat) = 2 ^ 7 from rfl,
            two_pow_shiftRight (by omega)]
          congr 1
          omega
        have hbit : ((buf &&& (0x80 >>> ((8 - n % 8) % 8 - 1))) != 0) =
            v.testBit n := by
          rw [hmask, bit_of_and_two_pow, hbuf']
          exact hbits n (by omega)
        rw [hbit, acc_step rfl]
        have e1 : (n + 1 + 7) / 8 = (n + 7) / 8 := by omega
        have e2 : (8 - (n + 1) % 8) % 8 = (8 - n % 8) % 8 - 1 := by omega
        rw [e1, e2]
        rfl
      · intro h1
        rw [hbuf', show (n + 1) / 8 = n / 8 by omega]

/-- Bit `j < r` of an LSB-first partial-byte sum is the source bit. -/
theorem partial_testBit (v off j r : Nat) (hj : j < r) (hr : r ≤ 8) :
    (∑ t ∈ Finset.range r, 2 ^ t * (v.testBit (off + t)).toNat).testBit j =
      v.testBit (off + j) := by
  have hsum : (∑ t ∈ Finset.range r, 2 ^ t * (v.testBit (off + t)).toNat) =
      (v >>> off) % 2 ^ r := by
    rw [← sum_testBit_mod (v >>> off) r]
    refine Finset.sum_congr rfl fun t _ => ?_
    rw [Nat.testBit_shiftRight]
  rw [hsum, Nat.testBit_mod_two_pow, Nat.testBit_shiftRight]
  simp [hj]

theorem flush_bits_zero {bb : Nat} {P : List Nat} :
    flush_bits ⟨bb, 0, P⟩ = Except.ok ⟨bb, 0, P⟩ := rfl

theorem flush_bits_small {bb bs : Nat} {P : List Nat} (hbs : bs ≠ 0)
    (hroom : P.length < 65025) :
    flush_bits ⟨bb, bs, P⟩ = Except.ok ⟨0, 0, P ++ [bb]⟩ := by
  unfold flush_bits
  dsimp only
  simp only [SEGMENT_SIZE, MAX_SEGMENTS, HEADER_BYTES, pageCapacity]
  rw [if_pos hbs, if_neg (by omega), if_neg (by simp; omega)]

/-- `write_bits st x 1` is a single `put_bit`. -/
theorem write_bits_one (st : OggStream) (c : Bool) :
    write_bits st (if c then 1 else 0) 1 = put_bit st c := by
  unfold write_bits write_bits_bit_path
  rw [if_neg (by omega)]
  rw [show List.range 1 = [0] from rfl, List.foldlM_cons]
  have hb : ((((if c then 1 else 0 : Nat) >>> (0 % 32)) &&& 1) != 0) = c := by
    cases c <;> rfl
  rw [hb]
  cases put_bit st c with
  | error e => rfl
  | ok s => rfl

/-- `BitUintV.write_to` is the `put_bit` fold over the value's bits. -/
theorem write_to_eq_putBits (u : BitUintV) (os : OggStream) :
    u.write_to os = (List.range u.size).foldlM
      (fun st i => put_bit st (u.total.testBit i)) os := by
  unfold BitUintV.write_to
  apply foldlM_congr_fn
  intro s i
  rw [write_bits_one s ((u.total &&& (1 <<< i)) != 0), bit_of_and]

/-- Reading `width` bits back from a byte list whose bits agree with `v`
returns `v`. -/
theorem read_back (L : List Nat) (v width : Nat) (h2 : width < 32)
    (h3 : v < 2 ^ width) (hlen : width ≤ 8 * L.length)
    (hbits : ∀ i, i < width →
      (L.getD (i / 8) 0).testBit (i % 8) = v.testBit i) :
    (BitUintV.read_from (BitStream.new L) width >>=
      fun rr => pure rr.2.total : Except String Nat) = Except.ok v := by
  obtain ⟨buf, hloop, -⟩ :=
    read_loop_inv L v width hlen hbits width (le_refl _)
  rw [Nat.mod_eq_of_lt h3] at hloop
  have hnew : BitUintV.new width v = Except.ok ⟨width, v⟩ := by
    unfold BitUintV.new
    rw [if_neg (by omega), if_neg (by
      rw [show width % 32 = width from by omega, Nat.one_shiftLeft]
      omega)]
  unfold BitUintV.read_from
  rw [bind_assoc, hloop, exceptBind_ok]
  dsimp only
  rw [hnew, exceptBind_ok]
  rfl

/-! ## Claim C1 -/

/-- C1: for every width in `1..32` (i.e. 1 ≤ width ≤ 31, the range the
spec writes in Rust notation; width 32 is separately broken, see C6) and
every `v < 2^width`, constructing a `BitUintV`, writing it bit-serially
LSB-first into a fresh `BitOggStream` payload, flushing the pending bits,
and reading `width` bits back from the written bytes returns exactly `v`. -/
theorem C1_bituintv_roundtrip (width v : Nat) (h1 : 1 ≤ width)
    (h2 : width < 32) (h3 : v < 2 ^ width) :
    (do
      let u ← BitUintV.new width v
      let os ← u.write_to OggStream.init
      let os2 ← flush_bits os
      let r ← BitUintV.read_from (BitStream.new os2.payload) width
      pure r.2.total : Except String Nat) = Except.ok v := by
  have hnew : BitUintV.new width v = Except.ok ⟨width, v⟩ := by
    unfold BitUintV.new
    rw [if_neg (by omega), if_neg (by
      rw [show width % 32 = width from by omega, Nat.one_shiftLeft]
      omega)]
  rw [hnew, exceptBind_ok]
  -- the write side
  obtain ⟨q, r, hqr, hrlt⟩ : ∃ q r, width = 8 * q + r ∧ r < 8 :=
    ⟨width / 8, width % 8, by omega, by omega⟩
  have hq : q ≤ 3 := by omega
  rw [write_to_eq_putBits]
  show (do
      let os ← (List.range (BitUintV.mk width v).size).foldlM
        (fun st i => put_bit st ((BitUintV.mk width v).total.testBit i))
        OggStream.init
      let os2 ← flush_bits os
      let r ← BitUintV.read_from (BitStream.new os2.payload) width
      pure r.2.total : Except String Nat) = Except.ok v
  have hsz : (BitUintV.mk width v).size = width := rfl
  have htot : (BitUintV.mk width v).total = v := rfl
  rw [hsz, htot, hqr,
    show OggStream.init = (⟨0, 0, []⟩ : OggStream) from rfl,
    List.range_add, List.foldlM_append,
    putBits_chunks v.testBit q [] (by simp; omega), exceptBind_ok,
    List.foldlM_map, putBits_partial v.testBit r hrlt (8 * q) _]
  rw [exceptBind_ok, List.nil_append]
  -- names for the produced bytes
  set bytes := (List.range q).map (fun m =>
    ∑ t ∈ Finset.range 8, 2 ^ t * (v.testBit (8 * m + t)).toNat) with hbytes
  have hblen : bytes.length = q := by
    rw [hbytes, List.length_map, List.length_range]
  set S := ∑ t ∈ Finset.range r, 2 ^ t * (v.testBit (8 * q + t)).toNat
    with hS
  have hbyte_bit : ∀ i, i / 8 < q → i % 8 < 8 →
      (bytes.getD (i / 8) 0).testBit (i % 8) = v.testBit i := by
    intro i hiq hi8
    have hentry : bytes.getD (i / 8) 0 =
        ∑ t ∈ Finset.range 8, 2 ^ t * (v.testBit (8 * (i / 8) + t)).toNat := by
      rw [hbytes, List.getD_eq_getElem?_getD, List.getElem?_map,
        List.getElem?_range hiq]
      rfl
    rw [hentry, partial_testBit v (8 * (i / 8)) (i % 8) 8 hi8 (le_refl _)]
    congr 1
    omega
  rw [← hqr]
  by_cases hr0 : r = 0
  · -- byte-aligned width: the flush is a no-op
    subst hr0
    have hS0 : S = 0 := by rw [hS]; simp
    rw [hS0, flush_bits_zero, exceptBind_ok]
    refine read_back bytes v width h2 h3 (by omega) ?_
    intro i hi
    exact hbyte_bit i (by omega) (by omega)
  · -- the pending partial byte is flushed as a final byte
    rw [flush_bits_small hr0 (by omega), exceptBind_ok]
    refine read_back (bytes ++ [S]) v width h2 h3
      (by rw [List.length_append, hblen]; simp; omega) ?_
    intro i hi
    by_cases hiq : i / 8 < q
    · have hentry : (bytes ++ [S]).getD (i / 8) 0 = bytes.getD (i / 8) 0 := by
        rw [List.getD_eq_getElem?_getD, List.getD_eq_getElem?_getD,
          List.getElem?_append_left (by omega)]
      rw [hentry]
      exact hbyte_bit i hiq (by omega)
    · have hiq' : i / 8 = q := by omega
      have hir : i % 8 < r := by omega
      have hentry : (bytes ++ [S]).getD (i / 8) 0 = S := by
        rw [hiq', List.getD_eq_getElem?_getD,
          List.getElem?_append_right (by omega), hblen,
          show q - q = 0 from by omega]
        rfl
      rw [hentry, hS, partial_testBit v (8 * q) (i % 8) r hir (by omega)]
      congr 1
      omega

/-- C1 witness: width 13, value 5000 round-trips through write, flush and
read. -/
theorem C1_bituintv_roundtrip_witness :
    (do
      let u ← BitUintV.new 13 5000
      let os ← u.write_to OggStream.init
      let os2 ← flush_bits os
      let r ← BitUintV.read_from (BitStream.new os2.payload) 13
      pure r.2.total : Except String Nat) = Except.ok 5000 :=
  C1_bituintv_roundtrip 13 5000 (by decide) (by decide) (by decide)

/-! ## Claim C4 -/

/-- C4: from a byte-aligned writer state (no pending bits — the state in
which the fast path is exercised), for every width divisible by 8 (a `u8`)
and every value, `write_bits` — which takes the byte-aligned fast path —
and the bit-by-bit path produce identical results, in particular identical
payload bytes. -/
theorem C4_write_bits_paths_agree (s : OggStream) (value bits : Nat)
    (halign : s.bits_stored = 0) (hbb : s.bit_buffer = 0)
    (hdiv : bits % 8 = 0) (hbyte : bits < 256)
    (hroom : s.payload.length + bits / 8 ≤ SEGMENT_SIZE * MAX_SEGMENTS) :
    write_bits s value bits = write_bits_bit_path s value bits := by
  obtain ⟨bb, bs, P⟩ := s
  simp only at halign hbb hroom
  subst halign hbb
  obtain ⟨k, rfl⟩ : ∃ k, bits = 8 * k := ⟨bits / 8, by omega⟩
  have hk8 : 8 * k / 8 = k := by omega
  have hroom' : P.length + k ≤ 65025 := by
    simp only [SEGMENT_SIZE, MAX_SEGMENTS] at hroom
    omega
  unfold write_bits
  rw [if_pos hdiv, bytePath_spec value k 0 0 P hroom']
  unfold write_bits_bit_path
  have hfn : ∀ (st : OggStream) (i : Nat),
      put_bit st (((value >>> (i % 32)) &&& 1) != 0) =
        put_bit st (value.testBit (i % 32)) := by
    intro st i
    rw [and_one_bang, Nat.testBit_shiftRight, Nat.add_zero]
  rw [foldlM_congr_fn _ _ _ hfn,
    putBits_chunks (fun i => value.testBit (i % 32)) k P hroom']
  have hmaps : (List.range k).map
        (fun i => (value >>> ((i * 8) % 32)) &&& 0xFF) =
      (List.range k).map (fun m =>
        ∑ t ∈ Finset.range 8, 2 ^ t * (value.testBit ((8 * m + t) % 32)).toNat) := by
    refine List.map_congr_left fun m _ => ?_
    have hbyteeq : (∑ t ∈ Finset.range 8,
        2 ^ t * (value.testBit ((8 * m + t) % 32)).toNat) =
        (value >>> ((8 * m) % 32)) % 2 ^ 8 := by
      rw [← sum_testBit_mod (value >>> ((8 * m) % 32)) 8]
      refine Finset.sum_congr rfl fun t ht => ?_
      rw [Nat.testBit_shiftRight, mod32_byte_add (Finset.mem_range.mp ht)]
    rw [show (0xFF : Nat) = 2 ^ 8 - 1 from rfl,
      Nat.and_pow_two_sub_one_eq_mod, show m * 8 = 8 * m from by ring,
      hbyteeq]
  rw [hmaps]

/-- C4 witness: from an aligned state with payload `[7]`, writing
`0xABCD` with width 16 through either path yields the same result. -/
theorem C4_write_bits_paths_agree_witness :
    write_bits ⟨0, 0, [7]⟩ 0xABCD 16 =
      write_bits_bit_path ⟨0, 0, [7]⟩ 0xABCD 16 :=
  C4_write_bits_paths_agree ⟨0, 0, [7]⟩ 0xABCD 16 rfl rfl (by decide)
    (by decide) (by decide)

/-! ## Helper lemmas: CRC-32 -/

theorem xor_shiftLeft_distrib (a b n : Nat) :
    (a ^^^ b) <<< n = (a <<< n) ^^^ (b <<< n) := by
  apply Nat.eq_of_testBit_eq
  intro j
  simp only [Nat.testBit_shiftLeft, Nat.testBit_xor]
  by_cases h : n ≤ j <;> simp [h]

theorem xor_mod_two_pow (a b n : Nat) :
    (a ^^^ b) % 2 ^ n = (a % 2 ^ n) ^^^ (b % 2 ^ n) := by
  apply Nat.eq_of_testBit_eq
  intro j
  simp only [Nat.testBit_mod_two_pow, Nat.testBit_xor]
  by_cases h : j < n <;> simp [h]

/-- The reference CRC register step is XOR-linear against a summand whose
top bit is clear. -/
theorem crc_step_xor {x y : Nat} (hy : y.testBit 31 = false) :
    crc32_ref_step (x ^^^ y) =
      crc32_ref_step x ^^^ ((y <<< 1) % 2 ^ 32) := by
  unfold crc32_ref_step
  rw [Nat.testBit_xor, hy, Bool.xor_false]
  by_cases hx : x.testBit 31
  · rw [if_pos hx, if_pos hx, xor_shiftLeft_distrib, xor_mod_two_pow,
      Nat.xor_assoc, Nat.xor_comm ((y <<< 1) % 2 ^ 32) 0x04c11db7,
      ← Nat.xor_assoc]
  · rw [if_neg hx, if_neg hx, xor_shiftLeft_distrib, xor_mod_two_pow]

/-- Eight-fold iteration of the register step is XOR-linear against a
low summand. -/
theorem crc_iter_lin :
    ∀ (k x l : Nat), l * 2 ^ k < 2 ^ 32 →
      crc32_ref_step^[k] (x ^^^ l) =
        (crc32_ref_step^[k] x) ^^^ ((l <<< k) % 2 ^ 32) := by
  intro k
  induction k with
  | zero =>
    intro x l hl
    simp only [Function.iterate_zero, id_eq, Nat.shiftLeft_zero]
    rw [Nat.mod_eq_of_lt (by omega)]
  | succ n ih =>
    intro x l hl
    have h2n : (2 : Nat) ^ (n + 1) = 2 ^ n * 2 := pow_succ 2 n
    rw [h2n] at hl
    have h1 : (1 : Nat) ≤ 2 ^ n := Nat.one_le_two_pow
    have hstep : l * 2 ≤ l * (2 ^ n * 2) := by
      apply Nat.mul_le_mul_left
      omega
    have hl2 : l * 2 < 2 ^ 32 := by omega
    have hy : l.testBit 31 = false :=
      Nat.testBit_lt_two_pow (by omega)
    rw [Function.iterate_succ_apply, Function.iterate_succ_apply,
      crc_step_xor hy]
    have hmod : (l <<< 1) % 2 ^ 32 = l * 2 := by
      rw [Nat.shiftLeft_eq, pow_one, Nat.mod_eq_of_lt (by omega)]
    have hassoc : l * 2 * 2 ^ n = l * (2 ^ n * 2) := by ring
    rw [hmod, ih (crc32_ref_step x) (l * 2) (by omega)]
    congr 1
    rw [Nat.shiftLeft_eq, Nat.shiftLeft_eq, h2n]
    ring_nf

/-- The CRC lookup table is the 8-fold register step on every byte. -/
theorem crc_table_correct :
    ∀ t, t < 256 → CRC_LOOKUP.getD t 0 = crc32_ref_step^[8] (t <<< 24) := by
  decide

/-- Splitting a 32-bit register into its top byte and low 24 bits. -/
theorem crc_decomp {r : Nat} (hr : r < 2 ^ 32) :
    r = ((r >>> 24) <<< 24) ^^^ (r % 2 ^ 24) := by
  apply Nat.eq_of_testBit_eq
  intro j
  rw [Nat.testBit_xor, Nat.testBit_shiftLeft, Nat.testBit_mod_two_pow,
    Nat.testBit_shiftRight]
  by_cases h : 24 ≤ j
  · rw [decide_eq_true h, show 24 + (j - 24) = j from by omega]
    simp [show ¬(j < 24) from by omega]
  · simp [h, show j < 24 from by omega]

/-- One table-driven `checksum` step equals one reference byte step. -/
theorem crc_step_eq {r b : Nat} (hr : r < 2 ^ 32) (hb : b < 256) :
    ((r <<< 8) % 2 ^ 32) ^^^
        CRC_LOOKUP.getD (((r >>> 24) % 256) ^^^ b) 0 =
      crc32_ref_byte r b := by
  have hhi : r >>> 24 < 256 := by
    rw [Nat.shiftRight_eq_div_pow]
    omega
  have hhim : (r >>> 24) % 256 = r >>> 24 := Nat.mod_eq_of_lt hhi
  have hidx : (r >>> 24) ^^^ b < 256 :=
    Nat.xor_lt_two_pow (n := 8) hhi hb
  unfold crc32_ref_byte
  rw [Nat.mod_eq_of_lt hb, hhim, crc_table_correct _ hidx]
  have hinj : r ^^^ (b <<< 24) =
      (((r >>> 24) ^^^ b) <<< 24) ^^^ (r % 2 ^ 24) := by
    conv_lhs => rw [crc_decomp hr]
    rw [xor_shiftLeft_distrib, Nat.xor_assoc,
      Nat.xor_comm (r % 2 ^ 24) (b <<< 24), ← Nat.xor_assoc]
  rw [hinj, crc_iter_lin 8 _ (r % 2 ^ 24) (by
    have hlt : r % 2 ^ 24 < 2 ^ 24 := Nat.mod_lt _ (by norm_num)
    calc (r % 2 ^ 24) * 2 ^ 8 < 2 ^ 24 * 2 ^ 8 :=
          mul_lt_mul_of_pos_right hlt (by norm_num)
      _ = 2 ^ 32 := by norm_num)]
  have hlow : (r <<< 8) % 2 ^ 32 = ((r % 2 ^ 24) <<< 8) % 2 ^ 32 := by
    rw [Nat.shiftLeft_eq, Nat.shiftLeft_eq]
    conv_lhs => rw [show r = 2 ^ 24 * (r / 2 ^ 24) + r % 2 ^ 24 from
      (Nat.div_add_mod r (2 ^ 24)).symm]
    rw [Nat.add_mul, show (2 : Nat) ^ 24 * (r / 2 ^ 24) * 2 ^ 8 =
      (r / 2 ^ 24) * 2 ^ 32 from by ring,
      Nat.add_comm ((r / 2 ^ 24) * 2 ^ 32) ((r % 2 ^ 24) * 2 ^ 8),
      Nat.add_mul_mod_self_right]
  rw [hlow]
  exact Nat.xor_comm _ _

theorem crc32_ref_step_lt (x : Nat) : crc32_ref_step x < 2 ^ 32 := by
  unfold crc32_ref_step
  by_cases h : x.testBit 31
  · rw [if_pos h]
    exact Nat.xor_lt_two_pow (Nat.mod_lt _ (by positivity)) (by norm_num)
  · rw [if_neg h]
    exact Nat.mod_lt _ (by positivity)

theorem crc32_ref_byte_lt (r b : Nat) : crc32_ref_byte r b < 2 ^ 32 := by
  unfold crc32_ref_byte
  rw [show (8 : Nat) = 7 + 1 from rfl, Function.iterate_succ_apply']
  exact crc32_ref_step_lt _

/-- The two CRC folds agree byte by byte. -/
theorem crc_fold_eq :
    ∀ (data : List Nat) (r : Nat), r < 2 ^ 32 → (∀ b ∈ data, b < 256) →
      data.foldl (fun crc_reg b =>
        ((crc_reg <<< 8) % 2 ^ 32) ^^^
          CRC_LOOKUP.getD (((crc_reg >>> 24) % 256) ^^^ b) 0) r =
      data.foldl crc32_ref_byte r := by
  intro data
  induction data with
  | nil => intro r _ _; rfl
  | cons b rest ih =>
    intro r hr hb
    rw [List.foldl_cons, List.foldl_cons,
      crc_step_eq hr (hb b (by simp))]
    exact ih _ (crc32_ref_byte_lt r b) (fun x hx => hb x (by simp [hx]))

/-! ## Claim C7 -/

/-- C7: `checksum` computes the CRC-32 with polynomial 0x04C11DB7,
MSB-first table-driven, zero initial register and no final XOR: over the
first `n = data.length` bytes it agrees with the bitwise reference
implementation `crc32_ref` (modelled from the spec) for every byte
sequence, and on the spec's 27-byte Ogg page header template
`"OggS" + 0x00 + 0x02 + zeros` with a zeroed checksum field it equals the
reference value `0x7d65d742`. -/
theorem C7_checksum_matches_reference :
    (∀ data : List Nat, (∀ b ∈ data, b < 256) → data.length < 2 ^ 64 →
      checksum data (data.length : Int) = crc32_ref data) ∧
    checksum oggTemplate 27 = crc32_ref oggTemplate ∧
    checksum oggTemplate 27 = 0x7d65d742 := by
  have hgen : ∀ data : List Nat, (∀ b ∈ data, b < 256) →
      data.length < 2 ^ 64 →
      checksum data (data.length : Int) = crc32_ref data := by
    intro data hb hlen
    unfold checksum crc32_ref
    have htake : ((data.length : Int) % 2 ^ 64).toNat = data.length := by
      rw [Int.emod_eq_of_lt (by omega) (by exact_mod_cast hlen)]
      exact Int.toNat_natCast _
    rw [htake, List.take_length]
    exact crc_fold_eq data 0 (by norm_num) hb
  exact ⟨hgen, hgen oggTemplate (by decide) (by decide), by decide⟩

/-- C7 witness: the general agreement applied to the concrete byte
sequence `[1, 2, 3]`. -/
theorem C7_checksum_matches_reference_witness :
    checksum [1, 2, 3] (([1, 2, 3] : List Nat).length : Int) =
      crc32_ref [1, 2, 3] :=
  C7_checksum_matches_reference.1 [1, 2, 3] (by decide) (by decide)

end Wem
